import Mathlib

/-!
Shallow embedding of the lazy graph-exploration core of the
hdt-graph-discovery demo:

* the RDF-style triple source and its pattern-match capability,
* the general graph browser's node map and child resolver
  (`loadNodeChildren` and its query helpers),
* the specialized single-predicate traversal (`loadNode`),
* the bookmark store's `fillFocusedInput` operation.

Each definition mirrors one function of the TypeScript source.  JavaScript
`Map` objects are modelled as association lists with insert-or-replace
semantics (`mapSet`), which preserves JS `Map` insertion-order iteration.
JavaScript string truthiness (`""` is falsy) is modelled explicitly where
the source relies on it.
-/

namespace GraphDemo

/-- Terms of the triple source.  The source discriminates `quad.x.termType`
into `'NamedNode'`, `'Literal'` and other kinds (e.g. blank nodes). -/
inductive Term where
  | named (value : String)
  | literal (value : String)
  | blank (value : String)
deriving DecidableEq, Repr

/-- Mirrors the `.value` accessor on RDF/JS terms. -/
def Term.value : Term → String
  | .named v => v
  | .literal v => v
  | .blank v => v

/-- A subject–predicate–object fact. -/
structure Triple where
  subject : Term
  predicate : Term
  object : Term
deriving DecidableEq, Repr

/-- Mirrors a pattern position of `dataset.match`: `none` is the `null`
wildcard, `some t` must equal the term exactly. -/
def termMatches (pat : Option Term) (t : Term) : Bool :=
  match pat with
  | some x => x == t
  | none => true

/-- Mirrors `dataset.match(s, p, o)`: the matching triples in source
iteration order. -/
def matchPattern (ds : List Triple) (s p o : Option Term) : List Triple :=
  ds.filter (fun t =>
    termMatches s t.subject && termMatches p t.predicate && termMatches o t.object)

/-- Generic association-list lookup, mirroring JS `Map.get` /
first-occurrence object-key lookup. -/
def mapGet {α : Type} : List (String × α) → String → Option α
  | [], _ => none
  | kv :: rest, k => if kv.1 = k then some kv.2 else mapGet rest k

/-- Generic association-list update, mirroring JS `Map.set` (and object
spread `{...m, [k]: v}`): replace in place when the key exists, append
otherwise. -/
def mapSet {α : Type} (m : List (String × α)) (k : String) (v : α) : List (String × α) :=
  match m with
  | [] => [(k, v)]
  | kv :: rest => if kv.1 = k then (k, v) :: rest else kv :: mapSet rest k v

/-- JavaScript truthiness of a `string | undefined` value: `undefined` and
`""` are falsy. -/
def strTruthy (s : Option String) : Bool :=
  match s with
  | some v => v != ""
  | none => false

/-! General browser (`GraphBrowser`) data model. -/

/-- The `NodeType` union `'root' | 'in' | 'out' | 'predicate' | 'object'`.
`dirIn`/`dirOut` stand for the source strings `'in'`/`'out'`, `pred` for
`'predicate'` and `obj` for `'object'`. -/
inductive NodeType where
  | root
  | dirIn
  | dirOut
  | pred
  | obj
deriving DecidableEq, Repr

/-- Type-tag string used when composing node ids. -/
def NodeType.str : NodeType → String
  | .root => "root"
  | .dirIn => "in"
  | .dirOut => "out"
  | .pred => "predicate"
  | .obj => "object"

/-- The `'in' | 'out'` union used for `parentType`. -/
inductive Direction where
  | inDir
  | outDir
deriving DecidableEq, Repr

abbrev NodeId := String

/-- Object metadata returned by `loadObjects`: `{ value, isLiteral }`. -/
structure ObjInfo where
  value : String
  isLiteral : Bool
deriving DecidableEq, Repr

/-- The `NodeData` record of the general browser. -/
structure NodeData where
  type : NodeType
  iri : String
  predicate : Option String := none
  loaded : Bool
  children : Option (List NodeId) := none
  parentType : Option Direction := none
  isLiteral : Option Bool := none
  literalValue : Option String := none
  objectInfo : Option (List ObjInfo) := none
  singleLiteralValue : Option String := none
  parentNodeId : Option NodeId := none
deriving DecidableEq, Repr

abbrev NodeMap := List (NodeId × NodeData)

/-- Mirrors `getNodeId(type, iri, predicate?, parentNodeId?)`.  The JS
`if (predicate)` test is string truthiness, so an empty-string predicate
falls through to the predicate-less base id. -/
def getNodeId (type : NodeType) (iri : String) (predicate : Option String)
    (parentNodeId : Option NodeId) : NodeId :=
  let base :=
    match predicate with
    | some p => if p = "" then type.str ++ ":" ++ iri else type.str ++ ":" ++ iri ++ ":" ++ p
    | none => type.str ++ ":" ++ iri
  match parentNodeId with
  | some pid => pid ++ "->" ++ base
  | none => base

/-- Collecting into a JS `Set` and converting back with `Array.from` keeps
the first occurrence of each element in insertion order. -/
def firstDedup : List String → List String
  | [] => []
  | x :: xs => x :: firstDedup (xs.filter (fun y => !(y == x)))
termination_by l => l.length
decreasing_by
  simp only [List.length_cons]
  exact Nat.lt_succ_of_le (List.length_filter_le _ _)

/-- Mirrors `loadOutgoingPredicates`: distinct predicate values of triples
matching `(iri, *, *)`, sorted with `Array.sort()` (lexicographic). -/
def loadOutgoingPredicates (ds : List Triple) (iri : String) : List String :=
  (firstDedup ((matchPattern ds (some (.named iri)) none none).map
      (fun q => q.predicate.value))).mergeSort (fun a b => decide (a ≤ b))

/-- Mirrors `loadIncomingPredicates`: distinct predicate values of triples
matching `(*, *, iri)`, sorted. -/
def loadIncomingPredicates (ds : List Triple) (iri : String) : List String :=
  (firstDedup ((matchPattern ds none none (some (.named iri))).map
      (fun q => q.predicate.value))).mergeSort (fun a b => decide (a ≤ b))

/-- Mirrors `loadObjects(subjectIri, predicateIri, limit)`: walk the matches
of `(subjectIri, predicateIri, *)`, counting every quad (retained or not)
against the limit, and retain named-node and literal objects. -/
def loadObjects (ds : List Triple) (subjectIri predicateIri : String) (limit : Nat) :
    List ObjInfo :=
  ((matchPattern ds (some (.named subjectIri)) (some (.named predicateIri)) none).take
      limit).filterMap
    (fun q =>
      match q.object with
      | .named v => some { value := v, isLiteral := false }
      | .literal v => some { value := v, isLiteral := true }
      | .blank _ => none)

/-- Mirrors `loadSubjects(objectIri, predicateIri, limit)`: walk the matches
of `(*, predicateIri, objectIri)` under the same counting cap, retaining
only named-node subjects. -/
def loadSubjects (ds : List Triple) (objectIri predicateIri : String) (limit : Nat) :
    List String :=
  ((matchPattern ds none (some (.named predicateIri)) (some (.named objectIri))).take
      limit).filterMap
    (fun q =>
      match q.subject with
      | .named v => some v
      | _ => none)

/-- Abstract view of the four async query helpers as the child resolver
uses them; a throwing query is an `Except.error`. -/
structure QuerySource where
  loadOutgoingPredicates : String → Except String (List String)
  loadIncomingPredicates : String → Except String (List String)
  loadObjects : String → String → Except String (List ObjInfo)
  loadSubjects : String → String → Except String (List String)

/-- The query source backed by an actual dataset never throws; the object
and subject loaders are called with their default `limit = 100`. -/
def QuerySource.ofDataset (ds : List Triple) : QuerySource where
  loadOutgoingPredicates := fun iri => .ok (GraphDemo.loadOutgoingPredicates ds iri)
  loadIncomingPredicates := fun iri => .ok (GraphDemo.loadIncomingPredicates ds iri)
  loadObjects := fun s p => .ok (GraphDemo.loadObjects ds s p 100)
  loadSubjects := fun o p => .ok (GraphDemo.loadSubjects ds o p 100)

/-- The record built for one predicate in the `out`/`in` branch loops. -/
def predicateRecord (nodeId : NodeId) (iri : String) (pt : Direction) (p : String) :
    NodeData :=
  { type := .pred, iri := iri, predicate := some p, loaded := false,
    parentType := some pt, parentNodeId := some nodeId }

/-- Record built for a literal value node in the all-literals branch of the
predicate expansion. -/
def literalValueRecord (nodeId : NodeId) (obj : ObjInfo) : NodeData :=
  { type := .obj, iri := obj.value, loaded := false, isLiteral := some true,
    literalValue := some obj.value, parentNodeId := some nodeId }

/-- Record built for a value node in the mixed/resource-valued branch. -/
def mixedValueRecord (nodeId : NodeId) (obj : ObjInfo) : NodeData :=
  { type := .obj, iri := obj.value, loaded := false, isLiteral := some obj.isLiteral,
    literalValue := if obj.isLiteral then some obj.value else none,
    parentNodeId := some nodeId }

/-- Record built for a subject value node in the `in` direction. -/
def subjectValueRecord (nodeId : NodeId) (s : String) : NodeData :=
  { type := .obj, iri := s, loaded := false, isLiteral := some false,
    parentNodeId := some nodeId }

/-- One pass of the `for (const predicate of predicates)` loop body:
`newNodes.set(predicateNodeId, ...)` then `children.push(predicateNodeId)`. -/
def predicateFoldAux (nodeId : NodeId) (iri : String) (pt : Direction)
    (acc : List (NodeId × NodeData) × List NodeId) :
    List String → List (NodeId × NodeData) × List NodeId
  | [] => acc
  | p :: rest =>
    let pid := getNodeId .pred iri (some p) (some nodeId)
    predicateFoldAux nodeId iri pt
      (mapSet acc.1 pid (predicateRecord nodeId iri pt p), acc.2 ++ [pid]) rest

/-- The `for (const predicate of predicates)` loops of the `out`/`in`
branches: one unloaded predicate node per predicate, keyed by its path id,
with the id pushed onto the children list. -/
def predicateFold (nodeId : NodeId) (iri : String) (pt : Direction)
    (preds : List String) : List (NodeId × NodeData) × List NodeId :=
  predicateFoldAux nodeId iri pt ([], []) preds

/-- One pass of the object/subject materialization loop body: guarded by
`if (!newNodes.has(objectNodeId))` before `newNodes.set`, with
`children.push(objectNodeId)` unconditional. -/
def discoverFoldAux {α : Type} (mkId : α → NodeId) (mk : α → NodeData)
    (acc : List (NodeId × NodeData) × List NodeId) :
    List α → List (NodeId × NodeData) × List NodeId
  | [] => acc
  | item :: rest =>
    let oid := mkId item
    discoverFoldAux mkId mk
      ((if (mapGet acc.1 oid).isSome then acc.1 else mapSet acc.1 oid (mk item)),
        acc.2 ++ [oid]) rest

/-- The object/subject materialization loops of the predicate branch. -/
def discoverFold {α : Type} (mkId : α → NodeId) (mk : α → NodeData) (items : List α) :
    List (NodeId × NodeData) × List NodeId :=
  discoverFoldAux mkId mk ([], []) items

/-- The body of `loadNodeChildren` up to (but not including) the `setNodes`
write-back: reads the node from the snapshot map, early-returns (`none`) on
a missing or already-loaded node, and otherwise produces the `newNodes`
entries and the `children` id list of the matching branch.  A throwing
query propagates as `Except.error`. -/
def computeExpansion (qs : QuerySource) (nodes : NodeMap) (nodeId : NodeId) :
    Except String (Option (List (NodeId × NodeData) × List NodeId)) :=
  match mapGet nodes nodeId with
  | none => .ok none
  | some node =>
    if node.loaded then .ok none
    else
      match node.type with
      | .root =>
        let inId := getNodeId .dirIn node.iri none (some nodeId)
        let outId := getNodeId .dirOut node.iri none (some nodeId)
        let nn := mapSet (mapSet [] inId
            { type := .dirIn, iri := node.iri, loaded := false, parentNodeId := some nodeId })
          outId
          { type := .dirOut, iri := node.iri, loaded := false, parentNodeId := some nodeId }
        .ok (some (nn, [inId, outId]))
      | .dirOut =>
        match qs.loadOutgoingPredicates node.iri with
        | .error e => .error e
        | .ok predicates => .ok (some (predicateFold nodeId node.iri .outDir predicates))
      | .dirIn =>
        match qs.loadIncomingPredicates node.iri with
        | .error e => .error e
        | .ok predicates => .ok (some (predicateFold nodeId node.iri .inDir predicates))
      | .pred =>
        if node.iri != "" && strTruthy node.predicate then
          let p := node.predicate.getD ""
          if node.parentType == some .outDir then
            match qs.loadObjects node.iri p with
            | .error e => .error e
            | .ok objects =>
            let allLiterals := objects.all (fun o => o.isLiteral)
            let step :=
              if allLiterals && objects.length == 1 then
                -- single literal: stored inline on the predicate node, no children
                ([(nodeId,
                    { node with
                        loaded := true
                        singleLiteralValue :=
                          some (objects.headD { value := "", isLiteral := true }).value
                        objectInfo := some objects
                        children := some [] })],
                  ([] : List NodeId))
              else if allLiterals && objects.length > 1 then
                -- multiple literals: one terminal literal object node per result
                discoverFold (fun obj => getNodeId .obj obj.value none (some nodeId))
                  (fun obj => literalValueRecord nodeId obj) objects
              else
                -- mixed or resource-valued: one object node per result
                discoverFold (fun obj => getNodeId .obj obj.value none (some nodeId))
                  (fun obj => mixedValueRecord nodeId obj) objects
            -- store object info for reference unless already set with the single literal
            let cond :=
              match mapGet step.1 nodeId with
              | none => true
              | some r => r.singleLiteralValue = none
            let nn := if cond then mapSet step.1 nodeId { node with objectInfo := some objects } else step.1
            .ok (some (nn, step.2))
          else
            match qs.loadSubjects node.iri p with
            | .error e => .error e
            | .ok subjects =>
              .ok (some (discoverFold (fun s => getNodeId .obj s none (some nodeId))
                (fun s => subjectValueRecord nodeId s) subjects))
        else
          -- `if (node.iri && node.predicate)` failed: nothing discovered
          .ok (some ([], []))
      | .obj =>
        if node.isLiteral == some true then
          -- literals are leaf nodes, no children
          .ok (some ([(nodeId, { node with loaded := true, children := some [] })], []))
        else
          let inId := getNodeId .dirIn node.iri none (some nodeId)
          let outId := getNodeId .dirOut node.iri none (some nodeId)
          let nn1 : List (NodeId × NodeData) :=
            if (mapGet ([] : List (NodeId × NodeData)) inId).isSome then []
            else mapSet [] inId
              { type := .dirIn, iri := node.iri, loaded := false, parentNodeId := some nodeId }
          let nn2 :=
            if (mapGet nn1 outId).isSome then nn1
            else mapSet nn1 outId
              { type := .dirOut, iri := node.iri, loaded := false, parentNodeId := some nodeId }
          .ok (some (nn2, [inId, outId]))

/-- The `for (const [childId, childNode] of newNodes.entries())` loop of the
write-back: add every discovered entry to the map. -/
def insertAll (prev : NodeMap) : List (NodeId × NodeData) → NodeMap
  | [] => prev
  | kv :: rest => insertAll (mapSet prev kv.1 kv.2) rest

/-- The `setNodes` write-back of `loadNodeChildren`, applied to the map
current at write-back time: add every discovered entry, then mark the
target node loaded with its children unless the (freshly looked-up) record
carries a `singleLiteralValue`. -/
def commitExpansion (prev : NodeMap) (nodeId : NodeId)
    (newNodes : List (NodeId × NodeData)) (children : List NodeId) : NodeMap :=
  let updated := insertAll prev newNodes
  match mapGet updated nodeId with
  | some u =>
    if u.singleLiteralValue = none then
      mapSet updated nodeId { u with loaded := true, children := some children }
    else updated
  | none => updated

/-- One sequential run of `loadNodeChildren` inside the `try` block: the
computation reads the snapshot and, unless it early-returned, commits to
the same map.  An error escapes before anything is committed. -/
def tryLoadNodeChildren (qs : QuerySource) (nodes : NodeMap) (nodeId : NodeId) :
    Except String NodeMap :=
  match computeExpansion qs nodes nodeId with
  | .error e => .error e
  | .ok none => .ok nodes
  | .ok (some (nn, ch)) => .ok (commitExpansion nodes nodeId nn ch)

/-- Full `loadNodeChildren` including the `catch` branch, which only logs:
the node map is left as it was on error. -/
def loadNodeChildrenQ (qs : QuerySource) (nodes : NodeMap) (nodeId : NodeId) : NodeMap :=
  match tryLoadNodeChildren qs nodes nodeId with
  | .ok m => m
  | .error _ => nodes

/-- `loadNodeChildren` against an actual dataset. -/
def loadNodeChildren (ds : List Triple) (nodes : NodeMap) (nodeId : NodeId) : NodeMap :=
  loadNodeChildrenQ (QuerySource.ofDataset ds) nodes nodeId

/-! Concrete scenarios exercised by the verification. -/

/-- Dataset of the cap scenario: 150 triples `(ex:a, ex:p, ex:v1..ex:v150)`. -/
def capDataset : List Triple :=
  (List.range 150).map (fun i =>
    { subject := .named "ex:a", predicate := .named "ex:p",
      object := .named ("ex:v" ++ toString (i + 1)) })

/-- A node map holding one unloaded out-direction PredicateGroup for
`(ex:a, ex:p)`. -/
def capMap : NodeMap :=
  [("pg", { type := .pred, iri := "ex:a", predicate := some "ex:p",
            loaded := false, parentType := some .outDir })]

/-- Dataset whose first match is a blank-node object followed by 101 named
objects: the blank node is discarded but still consumes the cap. -/
def blankCapDataset : List Triple :=
  { subject := .named "ex:a", predicate := .named "ex:p", object := .blank "b0" } ::
    (List.range 101).map (fun i =>
      { subject := .named "ex:a", predicate := .named "ex:p",
        object := .named ("ex:v" ++ toString (i + 1)) })

/-- Dataset and initial map of the overlapping-expansion scenario: one
unloaded PredicateGroup whose single object is the resource `ex:b`. -/
def overlapDataset : List Triple :=
  [{ subject := .named "ex:a", predicate := .named "ex:p", object := .named "ex:b" }]

/-- Initial map of the overlapping-expansion scenario. -/
def overlapMap0 : NodeMap :=
  [("pg", { type := .pred, iri := "ex:a", predicate := some "ex:p",
            loaded := false, parentType := some .outDir })]

/-- The discovery result both overlapping expansion requests compute from
the initial snapshot (they start before either write-back lands). -/
def overlapResult : List (NodeId × NodeData) × List NodeId :=
  match computeExpansion (QuerySource.ofDataset overlapDataset) overlapMap0 "pg" with
  | .ok (some r) => r
  | _ => ([], [])

/-- Map after the first request's write-back. -/
def overlapMap1 : NodeMap :=
  commitExpansion overlapMap0 "pg" overlapResult.1 overlapResult.2

/-- Map after the user then expands the discovered value node `ex:b`. -/
def overlapMap2 : NodeMap :=
  loadNodeChildren overlapDataset overlapMap1 (getNodeId .obj "ex:b" none (some "pg"))

/-- Map after the second (overlapping) request's later-completing
write-back, applied — as in the source — to the then-current map. -/
def overlapMap3 : NodeMap :=
  commitExpansion overlapMap2 "pg" overlapResult.1 overlapResult.2

/-! Specialized single-predicate traversal (`SpecializedGraphBrowser`). -/

/-- The `SpecializedNode` record: keyed by IRI alone. -/
structure SpecializedNode where
  iri : String
  label : Option String := none
  loaded : Bool
  children : Option (List String) := none
deriving DecidableEq, Repr

abbrev SpecMap := List (String × SpecializedNode)

/-- The `rdfs:label` predicate used by `loadLabel`. -/
def rdfsLabelIri : String := "http://www.w3.org/2000/01/rdf-schema#label"

/-- Mirrors `loadLabel`: the first literal object of `(iri, rdfs:label, *)`. -/
def loadLabel (ds : List Triple) (iri : String) : Option String :=
  (matchPattern ds (some (.named iri)) (some (.named rdfsLabelIri)) none).findSome?
    (fun q =>
      match q.object with
      | .literal v => some v
      | _ => none)

/-- Mirrors `loadChildren`: named-node objects of `(iri, predicateIri, *)`. -/
def loadSpecChildren (ds : List Triple) (predicateIri iri : String) : List String :=
  (matchPattern ds (some (.named iri)) (some (.named predicateIri)) none).filterMap
    (fun q =>
      match q.object with
      | .named v => some v
      | _ => none)

/-- Mirrors `loadParents`: named-node subjects of `(*, predicateIri, iri)`. -/
def loadSpecParents (ds : List Triple) (predicateIri iri : String) : List String :=
  (matchPattern ds none (some (.named predicateIri)) (some (.named iri))).filterMap
    (fun q =>
      match q.subject with
      | .named v => some v
      | _ => none)

/-- The child-label follow-up of `loadNode`: for each related IRI, write the
looked-up label into the existing record, or insert a fresh unloaded record
keyed by that IRI. -/
def specializedLabelCommit (ds : List Triple) (cur : SpecMap) :
    List String → SpecMap
  | [] => cur
  | childIri :: rest =>
    let lbl := loadLabel ds childIri
    let acc :=
      match mapGet cur childIri with
      | some existing => mapSet cur childIri { existing with label := lbl }
      | none => mapSet cur childIri { iri := childIri, label := lbl, loaded := false }
    specializedLabelCommit ds acc rest

/-- The `setNodes` write-back of the specialized `loadNode`, applied to the
map current at write-back time: re-check `loaded` first (double-write
guard), then store the record and schedule the child-label fill when there
are related nodes. -/
def specializedWriteBack (ds : List Triple) (prev : SpecMap) (iri : String)
    (label : Option String) (relatedNodes : List String) : SpecMap :=
  match mapGet prev iri with
  | some existing =>
    if existing.loaded then prev
    else
      let m1 := mapSet prev iri
        { iri := iri, label := label, loaded := true, children := some relatedNodes }
      if 0 < relatedNodes.length then specializedLabelCommit ds m1 relatedNodes else m1
  | none =>
    let m1 := mapSet prev iri
      { iri := iri, label := label, loaded := true, children := some relatedNodes }
    if 0 < relatedNodes.length then specializedLabelCommit ds m1 relatedNodes else m1

/-- One sequential run of the specialized `loadNode`: resolve label and
related nodes for the fixed predicate and direction, then write back. -/
def loadNode (ds : List Triple) (direction : Direction) (predicateIri : String)
    (nodes : SpecMap) (iri : String) : SpecMap :=
  let label := loadLabel ds iri
  let relatedNodes :=
    match direction with
    | .outDir => loadSpecChildren ds predicateIri iri
    | .inDir => loadSpecParents ds predicateIri iri
  specializedWriteBack ds nodes iri label relatedNodes

/-! Bookmark store. -/

/-- The `'subject' | 'predicate' | 'object'` hint union. -/
inductive Hint where
  | subject
  | predicate
  | object
deriving DecidableEq, Repr

/-- A saved bookmark. -/
structure Bookmark where
  iri : String
  label : Option String := none
  description : Option String := none
  hint : Option Hint := none
  addedAt : Nat
deriving DecidableEq, Repr

/-- The bookmark store state. -/
structure BookmarkState where
  bookmarks : List Bookmark
  fieldStates : List (String × String)
  lastFocusedInputId : Option String
deriving DecidableEq, Repr

/-- Mirrors `fillFocusedInput(iri)`.  The guard `if (state.lastFocusedInputId)`
is JS truthiness, so both `null` and the empty string leave the state
unchanged; otherwise the focused field's entry is set via object spread
(zustand merges the partial state, so bookmarks and the focus id are kept). -/
def fillFocusedInput (state : BookmarkState) (iri : String) : BookmarkState :=
  match state.lastFocusedInputId with
  | some fid =>
    if fid = "" then state
    else { state with fieldStates := mapSet state.fieldStates fid iri }
  | none => state

/-! Basic lemmas about the association-list map operations. -/

theorem mapGet_mapSet_self {α : Type} (m : List (String × α)) (k : String) (v : α) :
    mapGet (mapSet m k v) k = some v := by
  induction m with
  | nil => simp [mapGet, mapSet]
  | cons kv rest ih =>
    by_cases h : kv.1 = k
    · simp [mapGet, mapSet, h]
    · simp [mapGet, mapSet, h, ih]

theorem mapGet_mapSet_ne {α : Type} (m : List (String × α)) (k k' : String) (v : α)
    (h : k' ≠ k) : mapGet (mapSet m k v) k' = mapGet m k' := by
  have h' : ¬(k = k') := fun e => h e.symm
  induction m with
  | nil => simp [mapGet, mapSet, h']
  | cons kv rest ih =>
    by_cases hk : kv.1 = k
    · subst hk
      simp [mapGet, mapSet, h']
    · by_cases hk' : kv.1 = k'
      · simp [mapGet, mapSet, hk, hk', h', h]
      · simp [mapGet, mapSet, hk, hk', ih]

/-- Key list of an association map. -/
def keys {α : Type} (m : List (String × α)) : List String := m.map Prod.fst

theorem mapGet_eq_none_iff {α : Type} (m : List (String × α)) (k : String) :
    mapGet m k = none ↔ k ∉ keys m := by
  induction m with
  | nil => simp [mapGet, keys]
  | cons kv rest ih =>
    by_cases h : kv.1 = k
    · simp [mapGet, keys, h]
    · have h2 : ¬(k = kv.1) := fun e => h e.symm
      simp [mapGet, keys, h, ih, h2]

theorem mapGet_mem {α : Type} {m : List (String × α)} {k : String} {v : α}
    (h : mapGet m k = some v) : (k, v) ∈ m := by
  induction m with
  | nil => simp [mapGet] at h
  | cons kv rest ih =>
    by_cases hk : kv.1 = k
    · simp [mapGet, hk] at h
      cases kv with
      | mk a b =>
        simp only at hk h
        subst hk
        subst h
        exact List.mem_cons_self _ _
    · simp [mapGet, hk] at h
      exact List.mem_cons_of_mem _ (ih h)

theorem mapSet_of_get_none {α : Type} {m : List (String × α)} {k : String} (v : α)
    (h : mapGet m k = none) : mapSet m k v = m ++ [(k, v)] := by
  induction m with
  | nil => simp [mapSet]
  | cons kv rest ih =>
    by_cases hk : kv.1 = k
    · simp [mapGet, hk] at h
    · simp [mapGet, hk] at h
      simp [mapSet, hk, ih h]

theorem keys_mapSet {α : Type} (m : List (String × α)) (k : String) (v : α) :
    keys (mapSet m k v) = if k ∈ keys m then keys m else keys m ++ [k] := by
  induction m with
  | nil => simp [mapSet, keys]
  | cons kv rest ih =>
    by_cases hk : kv.1 = k
    · simp [mapSet, keys, hk]
    · have h2 : ¬(k = kv.1) := fun e => hk e.symm
      simp only [mapSet, if_neg hk, keys, List.map_cons]
      simp only [keys] at ih
      rw [ih]
      by_cases hm : k ∈ List.map Prod.fst rest
      · simp [hm, h2]
      · simp [hm, h2]

theorem nodup_keys_mapSet {α : Type} (m : List (String × α)) (k : String) (v : α)
    (h : (keys m).Nodup) : (keys (mapSet m k v)).Nodup := by
  rw [keys_mapSet]
  by_cases hm : k ∈ keys m
  · simpa [hm]
  · simp only [hm, if_false]
    refine List.Nodup.append h (List.nodup_singleton k) ?_
    intro a ha hb
    rw [List.mem_singleton] at hb
    subst hb
    exact hm ha

theorem mapGet_of_nodup_keys_mem {α : Type} {m : List (String × α)} {k : String} {v : α}
    (hnd : (keys m).Nodup) (hmem : (k, v) ∈ m) : mapGet m k = some v := by
  induction m with
  | nil => simp at hmem
  | cons kv rest ih =>
    simp only [keys, List.map_cons, List.nodup_cons] at hnd
    rcases List.mem_cons.mp hmem with h | h
    · subst h
      simp [mapGet]
    · have hk : kv.1 ≠ k := by
        intro e
        exact hnd.1 (e ▸ List.mem_map_of_mem Prod.fst h)
      simp [mapGet, hk]
      exact ih hnd.2 h

/-! String lemmas used to separate the path-based node ids. -/

theorem str_append_left_cancel {s t u : String} (h : s ++ t = s ++ u) : t = u := by
  have hd : (s ++ t).data = (s ++ u).data := by rw [h]
  rw [String.data_append, String.data_append] at hd
  have hdata := List.append_cancel_left hd
  cases t with
  | mk td =>
    cases u with
    | mk ud =>
      exact congrArg String.mk (by simpa using hdata)

theorem str_ne_append_of_len (s t : String) (h : 0 < t.length) : s ≠ s ++ t := by
  intro e
  have : s.length = s.length + t.length := by
    conv_lhs => rw [e]
    exact String.length_append s t
  omega

theorem pid_ne_concat (pid base : String) : pid ≠ pid ++ "->" ++ base := by
  intro e
  have hlen := congrArg String.length e
  rw [String.length_append, String.length_append] at hlen
  have h2 : ("->").length = 2 := by decide
  omega

/-- A node id is never one of its own children's ids: path-composed ids
strictly extend the parent id. -/
theorem parent_ne_child_id (t : NodeType) (iri : String) (predicate : Option String)
    (pid : String) : pid ≠ getNodeId t iri predicate (some pid) := by
  cases predicate with
  | none =>
    simp only [getNodeId]
    exact pid_ne_concat _ _
  | some p =>
    by_cases hp : p = "" <;> simp [getNodeId, hp] <;> exact pid_ne_concat _ _

/-- Sibling `in`/`out` direction-group ids are distinct (their lengths differ). -/
theorem inId_ne_outId (iri pid : String) :
    getNodeId .dirIn iri none (some pid) ≠ getNodeId .dirOut iri none (some pid) := by
  intro e
  have hlen := congrArg String.length e
  simp only [getNodeId, NodeType.str, String.length_append] at hlen
  have h1 : ("in").length = 2 := by decide
  have h2 : ("out").length = 3 := by decide
  omega

/-- Predicate-group ids under one parent determine the predicate. -/
theorem predId_injective (iri pid : String) {p q : String}
    (h : getNodeId .pred iri (some p) (some pid) = getNodeId .pred iri (some q) (some pid)) :
    p = q := by
  by_cases hp : p = "" <;> by_cases hq : q = "" <;> simp [getNodeId, hp, hq] at h ⊢
  · exfalso
    have h2 := str_append_left_cancel h
    have hlen := congrArg String.length h2
    simp only [String.length_append] at hlen
    have h3 : (":").length = 1 := by decide
    omega
  · exfalso
    have h2 := str_append_left_cancel h
    have hlen := congrArg String.length h2
    simp only [String.length_append] at hlen
    have h3 : (":").length = 1 := by decide
    omega
  · exact str_append_left_cancel (str_append_left_cancel h)

/-- Value-node ids under one parent determine the value. -/
theorem objId_injective (pid : String) {a b : String}
    (h : getNodeId .obj a none (some pid) = getNodeId .obj b none (some pid)) : a = b := by
  simp only [getNodeId, NodeType.str] at h
  exact str_append_left_cancel (str_append_left_cancel h)

/-! Lemmas about the loop helpers. -/

theorem predicateFoldAux_snd (nodeId : NodeId) (iri : String) (pt : Direction)
    (preds : List String) (acc : List (NodeId × NodeData) × List NodeId) :
    (predicateFoldAux nodeId iri pt acc preds).2 =
      acc.2 ++ preds.map (fun p => getNodeId .pred iri (some p) (some nodeId)) := by
  induction preds generalizing acc with
  | nil => simp [predicateFoldAux]
  | cons p rest ih =>
    rw [predicateFoldAux, ih]
    simp

theorem predicateFoldAux_get_not_mem (nodeId : NodeId) (iri : String) (pt : Direction)
    (preds : List String) (acc : List (NodeId × NodeData) × List NodeId) (k : NodeId)
    (h : ∀ p ∈ preds, k ≠ getNodeId .pred iri (some p) (some nodeId)) :
    mapGet (predicateFoldAux nodeId iri pt acc preds).1 k = mapGet acc.1 k := by
  induction preds generalizing acc with
  | nil => rfl
  | cons p rest ih =>
    rw [predicateFoldAux, ih _ (fun q hq => h q (List.mem_cons_of_mem _ hq))]
    exact mapGet_mapSet_ne _ _ _ _ (h p (List.mem_cons_self _ _))

theorem predicateFoldAux_get_mem (nodeId : NodeId) (iri : String) (pt : Direction)
    (preds : List String) (acc : List (NodeId × NodeData) × List NodeId) (p : String)
    (hnd : preds.Nodup) (hmem : p ∈ preds) :
    mapGet (predicateFoldAux nodeId iri pt acc preds).1
        (getNodeId .pred iri (some p) (some nodeId)) =
      some (predicateRecord nodeId iri pt p) := by
  induction preds generalizing acc with
  | nil => simp at hmem
  | cons q rest ih =>
    rw [List.nodup_cons] at hnd
    rcases List.mem_cons.mp hmem with h | h
    · subst h
      rw [predicateFoldAux]
      rw [predicateFoldAux_get_not_mem]
      · exact mapGet_mapSet_self _ _ _
      · intro r hr e
        exact hnd.1 (predId_injective iri nodeId e ▸ hr)
    · rw [predicateFoldAux]
      exact ih _ hnd.2 h

theorem predicateFoldAux_keys_nodup (nodeId : NodeId) (iri : String) (pt : Direction)
    (preds : List String) (acc : List (NodeId × NodeData) × List NodeId)
    (h : (keys acc.1).Nodup) :
    (keys (predicateFoldAux nodeId iri pt acc preds).1).Nodup := by
  induction preds generalizing acc with
  | nil => exact h
  | cons p rest ih =>
    rw [predicateFoldAux]
    exact ih _ (nodup_keys_mapSet _ _ _ h)

theorem discoverFoldAux_snd {α : Type} (mkId : α → NodeId) (mk : α → NodeData)
    (items : List α) (acc : List (NodeId × NodeData) × List NodeId) :
    (discoverFoldAux mkId mk acc items).2 = acc.2 ++ items.map mkId := by
  induction items generalizing acc with
  | nil => simp [discoverFoldAux]
  | cons x rest ih =>
    rw [discoverFoldAux, ih]
    simp

theorem discoverFoldAux_get_not_mem {α : Type} (mkId : α → NodeId) (mk : α → NodeData)
    (items : List α) (acc : List (NodeId × NodeData) × List NodeId) (k : NodeId)
    (h : ∀ a ∈ items, k ≠ mkId a) :
    mapGet (discoverFoldAux mkId mk acc items).1 k = mapGet acc.1 k := by
  induction items generalizing acc with
  | nil => rfl
  | cons x rest ih =>
    rw [discoverFoldAux, ih _ (fun a ha => h a (List.mem_cons_of_mem _ ha))]
    by_cases hs : (mapGet acc.1 (mkId x)).isSome
    · simp [hs]
    · rw [if_neg hs]
      exact mapGet_mapSet_ne _ _ _ _ (h x (List.mem_cons_self _ _))

theorem discoverFoldAux_get_stable {α : Type} (mkId : α → NodeId) (mk : α → NodeData)
    (items : List α) (acc : List (NodeId × NodeData) × List NodeId) (k : NodeId)
    (v : NodeData) (h : mapGet acc.1 k = some v) :
    mapGet (discoverFoldAux mkId mk acc items).1 k = some v := by
  induction items generalizing acc with
  | nil => exact h
  | cons x rest ih =>
    rw [discoverFoldAux]
    apply ih
    by_cases hs : (mapGet acc.1 (mkId x)).isSome
    · simpa [hs] using h
    · rw [if_neg hs]
      by_cases hk : k = mkId x
      · subst hk
        rw [h] at hs
        simp at hs
      · rw [mapGet_mapSet_ne _ _ _ _ hk]
        exact h

theorem discoverFoldAux_get_mem {α : Type} (mkId : α → NodeId) (mk : α → NodeData)
    (items : List α) (acc : List (NodeId × NodeData) × List NodeId) (a : α)
    (hmem : a ∈ items)
    (hcoh : ∀ b ∈ items, mkId b = mkId a → mk b = mk a)
    (hacc : mapGet acc.1 (mkId a) = none ∨ mapGet acc.1 (mkId a) = some (mk a)) :
    mapGet (discoverFoldAux mkId mk acc items).1 (mkId a) = some (mk a) := by
  induction items generalizing acc with
  | nil => simp at hmem
  | cons x rest ih =>
    rw [discoverFoldAux]
    by_cases hx : mkId x = mkId a
    · have hmkeq : mk x = mk a := hcoh x (List.mem_cons_self _ _) hx
      apply discoverFoldAux_get_stable
      rcases hacc with hnone | hsome
      · have hs : ¬(mapGet acc.1 (mkId x)).isSome := by rw [hx, hnone]; simp
        rw [if_neg hs]
        rw [hx, ← hmkeq]
        exact mapGet_mapSet_self _ _ _
      · by_cases hs : (mapGet acc.1 (mkId x)).isSome
        · simpa [hs] using hsome
        · rw [if_neg hs]
          rw [hx, ← hmkeq]
          exact mapGet_mapSet_self _ _ _
    · have har : a ∈ rest := by
        rcases List.mem_cons.mp hmem with h | h
        · exact absurd (congrArg mkId h.symm) hx
        · exact h
      apply ih _ har (fun b hb e => hcoh b (List.mem_cons_of_mem _ hb) e)
      by_cases hs : (mapGet acc.1 (mkId x)).isSome
      · simpa [hs] using hacc
      · rw [if_neg hs]
        rw [mapGet_mapSet_ne _ _ _ _ (fun e => hx e.symm)]
        exact hacc

theorem discoverFoldAux_keys_nodup {α : Type} (mkId : α → NodeId) (mk : α → NodeData)
    (items : List α) (acc : List (NodeId × NodeData) × List NodeId)
    (h : (keys acc.1).Nodup) :
    (keys (discoverFoldAux mkId mk acc items).1).Nodup := by
  induction items generalizing acc with
  | nil => exact h
  | cons x rest ih =>
    rw [discoverFoldAux]
    apply ih
    by_cases hs : (mapGet acc.1 (mkId x)).isSome
    · simpa [hs] using h
    · rw [if_neg hs]
      exact nodup_keys_mapSet _ _ _ h

theorem mapGet_insertAll_nodup (nn : List (NodeId × NodeData)) (prev : NodeMap)
    (k : NodeId) (hnd : (keys nn).Nodup) :
    mapGet (insertAll prev nn) k =
      match mapGet nn k with
      | some v => some v
      | none => mapGet prev k := by
  induction nn generalizing prev with
  | nil => rfl
  | cons kv rest ih =>
    simp only [keys, List.map_cons, List.nodup_cons] at hnd
    rw [insertAll, ih _ hnd.2]
    by_cases hk : kv.1 = k
    · subst hk
      have hrest : mapGet rest kv.1 = none := by
        rw [mapGet_eq_none_iff]
        exact hnd.1
      rw [hrest]
      simp [mapGet, mapGet_mapSet_self]
    · have h2 : ¬(k = kv.1) := fun e => hk e.symm
      rw [mapGet_mapSet_ne _ _ _ _ h2]
      simp [mapGet, hk]

/-! Lemmas about dedup and sorting in the predicate loaders. -/

theorem firstDedup_mem (l : List String) (a : String) : a ∈ firstDedup l ↔ a ∈ l := by
  induction l using firstDedup.induct with
  | case1 => simp [firstDedup]
  | case2 x xs ih =>
    rw [firstDedup]
    by_cases hax : a = x
    · simp [hax]
    · simp [List.mem_cons, hax, ih, List.mem_filter]

theorem firstDedup_nodup (l : List String) : (firstDedup l).Nodup := by
  induction l using firstDedup.induct with
  | case1 => simp [firstDedup]
  | case2 x xs ih =>
    rw [firstDedup]
    refine List.nodup_cons.mpr ⟨?_, ih⟩
    intro hmem
    rw [firstDedup_mem] at hmem
    simp [List.mem_filter] at hmem

theorem sorted_strSort (l : List String) :
    List.Sorted (fun a b : String => a ≤ b) (l.mergeSort (fun a b => decide (a ≤ b))) := by
  have h := @List.sorted_mergeSort String (fun a b : String => decide (a ≤ b))
    (fun a b c hab hbc => by
      simp only [decide_eq_true_eq] at hab hbc ⊢
      exact le_trans hab hbc)
    (fun a b => by simpa using le_total a b) l
  exact h.imp (fun hab => by simpa using hab)

theorem nodup_strSort (l : List String) (h : l.Nodup) :
    (l.mergeSort (fun a b => decide (a ≤ b))).Nodup :=
  (List.mergeSort_perm l _).symm.nodup h

theorem loadOutgoingPredicates_sorted (ds : List Triple) (iri : String) :
    List.Sorted (fun a b : String => a ≤ b) (loadOutgoingPredicates ds iri) :=
  sorted_strSort _

theorem loadOutgoingPredicates_nodup (ds : List Triple) (iri : String) :
    (loadOutgoingPredicates ds iri).Nodup :=
  nodup_strSort _ (firstDedup_nodup _)

theorem loadOutgoingPredicates_mem (ds : List Triple) (iri p : String) :
    p ∈ loadOutgoingPredicates ds iri ↔
      ∃ t ∈ ds, t.subject = Term.named iri ∧ t.predicate.value = p := by
  rw [loadOutgoingPredicates, List.mem_mergeSort, firstDedup_mem]
  simp only [matchPattern, termMatches, List.mem_map, List.mem_filter, Bool.and_true,
    beq_iff_eq]
  constructor
  · rintro ⟨t, ⟨ht, he⟩, hp⟩
    exact ⟨t, ht, he.symm, hp⟩
  · rintro ⟨t, ht, he, hp⟩
    exact ⟨t, ⟨ht, he.symm⟩, hp⟩

theorem loadIncomingPredicates_sorted (ds : List Triple) (iri : String) :
    List.Sorted (fun a b : String => a ≤ b) (loadIncomingPredicates ds iri) :=
  sorted_strSort _

theorem loadIncomingPredicates_nodup (ds : List Triple) (iri : String) :
    (loadIncomingPredicates ds iri).Nodup :=
  nodup_strSort _ (firstDedup_nodup _)

theorem loadIncomingPredicates_mem (ds : List Triple) (iri p : String) :
    p ∈ loadIncomingPredicates ds iri ↔
      ∃ t ∈ ds, t.object = Term.named iri ∧ t.predicate.value = p := by
  rw [loadIncomingPredicates, List.mem_mergeSort, firstDedup_mem]
  simp only [matchPattern, termMatches, List.mem_map, List.mem_filter, Bool.true_and,
    beq_iff_eq]
  constructor
  · rintro ⟨t, ⟨ht, he⟩, hp⟩
    exact ⟨t, ht, he.symm, hp⟩
  · rintro ⟨t, ht, he, hp⟩
    exact ⟨t, ⟨ht, he.symm⟩, hp⟩


/-! Helper lemmas for running the child resolver. -/

theorem runQ_of_compute_some (qs : QuerySource) (m : NodeMap) (nodeId : NodeId)
    (r : List (NodeId × NodeData) × List NodeId)
    (h : computeExpansion qs m nodeId = .ok (some r)) :
    tryLoadNodeChildren qs m nodeId = .ok (commitExpansion m nodeId r.1 r.2) ∧
      loadNodeChildrenQ qs m nodeId = commitExpansion m nodeId r.1 r.2 := by
  obtain ⟨nn, ch⟩ := r
  have h1 : tryLoadNodeChildren qs m nodeId = .ok (commitExpansion m nodeId nn ch) := by
    rw [tryLoadNodeChildren, h]
  exact ⟨h1, by rw [loadNodeChildrenQ, h1]⟩

theorem runQ_of_compute_none (qs : QuerySource) (m : NodeMap) (nodeId : NodeId)
    (h : computeExpansion qs m nodeId = .ok none) :
    tryLoadNodeChildren qs m nodeId = .ok m ∧ loadNodeChildrenQ qs m nodeId = m := by
  have h1 : tryLoadNodeChildren qs m nodeId = .ok m := by
    rw [tryLoadNodeChildren, h]
  exact ⟨h1, by rw [loadNodeChildrenQ, h1]⟩

theorem commitExpansion_eq (m : NodeMap) (nodeId : NodeId)
    (nn : List (NodeId × NodeData)) (ch : List NodeId) (node : NodeData)
    (hnn : mapGet nn nodeId = none) (hnd : (keys nn).Nodup)
    (hget : mapGet m nodeId = some node) (hsingle : node.singleLiteralValue = none) :
    commitExpansion m nodeId nn ch =
      mapSet (insertAll m nn) nodeId { node with loaded := true, children := some ch } := by
  rw [commitExpansion]
  have hup : mapGet (insertAll m nn) nodeId = some node := by
    rw [mapGet_insertAll_nodup _ _ _ hnd, hnn, hget]
  rw [hup]
  simp [hsingle]

/-! Shared expansion lemmas for the direction-group branches. -/

theorem dirOut_load (ds : List Triple) (m : NodeMap) (nodeId : NodeId) (node : NodeData)
    (hget : mapGet m nodeId = some node) (htype : node.type = .dirOut)
    (hloaded : node.loaded = false) (hsingle : node.singleLiteralValue = none) :
    tryLoadNodeChildren (QuerySource.ofDataset ds) m nodeId =
      .ok (loadNodeChildren ds m nodeId) ∧
    mapGet (loadNodeChildren ds m nodeId) nodeId =
      some { node with
              loaded := true
              children := some ((loadOutgoingPredicates ds node.iri).map
                (fun p => getNodeId .pred node.iri (some p) (some nodeId))) } ∧
    ∀ p ∈ loadOutgoingPredicates ds node.iri,
      mapGet (loadNodeChildren ds m nodeId)
          (getNodeId .pred node.iri (some p) (some nodeId)) =
        some (predicateRecord nodeId node.iri .outDir p) := by
  have hcompute : computeExpansion (QuerySource.ofDataset ds) m nodeId =
      .ok (some (predicateFoldAux nodeId node.iri .outDir ([], [])
        (loadOutgoingPredicates ds node.iri))) := by
    simp [computeExpansion, hget, hloaded, htype, QuerySource.ofDataset, predicateFold]
  obtain ⟨h1, h2⟩ := runQ_of_compute_some _ _ _ _ hcompute
  have hnnget : mapGet (predicateFoldAux nodeId node.iri .outDir ([], [])
      (loadOutgoingPredicates ds node.iri)).1 nodeId = none := by
    rw [predicateFoldAux_get_not_mem _ _ _ _ _ _
      (fun p _ => parent_ne_child_id .pred node.iri (some p) nodeId)]
    rfl
  have hnnnd : (keys (predicateFoldAux nodeId node.iri .outDir ([], [])
      (loadOutgoingPredicates ds node.iri)).1).Nodup := by
    apply predicateFoldAux_keys_nodup
    simp [keys]
  have hsnd : (predicateFoldAux nodeId node.iri .outDir ([], [])
      (loadOutgoingPredicates ds node.iri)).2 =
      (loadOutgoingPredicates ds node.iri).map
        (fun p => getNodeId .pred node.iri (some p) (some nodeId)) := by
    simp [predicateFoldAux_snd]
  have hcommit := commitExpansion_eq m nodeId
    (predicateFoldAux nodeId node.iri .outDir ([], []) (loadOutgoingPredicates ds node.iri)).1
    (predicateFoldAux nodeId node.iri .outDir ([], []) (loadOutgoingPredicates ds node.iri)).2
    node hnnget hnnnd hget hsingle
  have hload : loadNodeChildren ds m nodeId =
      mapSet (insertAll m (predicateFoldAux nodeId node.iri .outDir ([], [])
        (loadOutgoingPredicates ds node.iri)).1) nodeId
        { node with
            loaded := true
            children := some ((loadOutgoingPredicates ds node.iri).map
              (fun p => getNodeId .pred node.iri (some p) (some nodeId))) } := by
    rw [loadNodeChildren, h2, hcommit, hsnd]
  refine ⟨?_, ?_, ?_⟩
  · rw [loadNodeChildren, h2]
    exact h1
  · rw [hload]
    exact mapGet_mapSet_self _ _ _
  · intro p hp
    have hm := predicateFoldAux_get_mem nodeId node.iri .outDir _ ([], []) p
      (loadOutgoingPredicates_nodup ds node.iri) hp
    rw [hload, mapGet_mapSet_ne _ _ _ _
      (fun e => parent_ne_child_id .pred node.iri (some p) nodeId e.symm),
      mapGet_insertAll_nodup _ _ _ hnnnd, hm]

theorem dirIn_load (ds : List Triple) (m : NodeMap) (nodeId : NodeId) (node : NodeData)
    (hget : mapGet m nodeId = some node) (htype : node.type = .dirIn)
    (hloaded : node.loaded = false) (hsingle : node.singleLiteralValue = none) :
    tryLoadNodeChildren (QuerySource.ofDataset ds) m nodeId =
      .ok (loadNodeChildren ds m nodeId) ∧
    mapGet (loadNodeChildren ds m nodeId) nodeId =
      some { node with
              loaded := true
              children := some ((loadIncomingPredicates ds node.iri).map
                (fun p => getNodeId .pred node.iri (some p) (some nodeId))) } ∧
    ∀ p ∈ loadIncomingPredicates ds node.iri,
      mapGet (loadNodeChildren ds m nodeId)
          (getNodeId .pred node.iri (some p) (some nodeId)) =
        some (predicateRecord nodeId node.iri .inDir p) := by
  have hcompute : computeExpansion (QuerySource.ofDataset ds) m nodeId =
      .ok (some (predicateFoldAux nodeId node.iri .inDir ([], [])
        (loadIncomingPredicates ds node.iri))) := by
    simp [computeExpansion, hget, hloaded, htype, QuerySource.ofDataset, predicateFold]
  obtain ⟨h1, h2⟩ := runQ_of_compute_some _ _ _ _ hcompute
  have hnnget : mapGet (predicateFoldAux nodeId node.iri .inDir ([], [])
      (loadIncomingPredicates ds node.iri)).1 nodeId = none := by
    rw [predicateFoldAux_get_not_mem _ _ _ _ _ _
      (fun p _ => parent_ne_child_id .pred node.iri (some p) nodeId)]
    rfl
  have hnnnd : (keys (predicateFoldAux nodeId node.iri .inDir ([], [])
      (loadIncomingPredicates ds node.iri)).1).Nodup := by
    apply predicateFoldAux_keys_nodup
    simp [keys]
  have hsnd : (predicateFoldAux nodeId node.iri .inDir ([], [])
      (loadIncomingPredicates ds node.iri)).2 =
      (loadIncomingPredicates ds node.iri).map
        (fun p => getNodeId .pred node.iri (some p) (some nodeId)) := by
    simp [predicateFoldAux_snd]
  have hcommit := commitExpansion_eq m nodeId
    (predicateFoldAux nodeId node.iri .inDir ([], []) (loadIncomingPredicates ds node.iri)).1
    (predicateFoldAux nodeId node.iri .inDir ([], []) (loadIncomingPredicates ds node.iri)).2
    node hnnget hnnnd hget hsingle
  have hload : loadNodeChildren ds m nodeId =
      mapSet (insertAll m (predicateFoldAux nodeId node.iri .inDir ([], [])
        (loadIncomingPredicates ds node.iri)).1) nodeId
        { node with
            loaded := true
            children := some ((loadIncomingPredicates ds node.iri).map
              (fun p => getNodeId .pred node.iri (some p) (some nodeId))) } := by
    rw [loadNodeChildren, h2, hcommit, hsnd]
  refine ⟨?_, ?_, ?_⟩
  · rw [loadNodeChildren, h2]
    exact h1
  · rw [hload]
    exact mapGet_mapSet_self _ _ _
  · intro p hp
    have hm := predicateFoldAux_get_mem nodeId node.iri .inDir _ ([], []) p
      (loadIncomingPredicates_nodup ds node.iri) hp
    rw [hload, mapGet_mapSet_ne _ _ _ _
      (fun e => parent_ne_child_id .pred node.iri (some p) nodeId e.symm),
      mapGet_insertAll_nodup _ _ _ hnnnd, hm]

theorem root_load (ds : List Triple) (m : NodeMap) (nodeId : NodeId) (node : NodeData)
    (hget : mapGet m nodeId = some node) (htype : node.type = .root)
    (hloaded : node.loaded = false) (hsingle : node.singleLiteralValue = none) :
    tryLoadNodeChildren (QuerySource.ofDataset ds) m nodeId =
      .ok (loadNodeChildren ds m nodeId) ∧
    mapGet (loadNodeChildren ds m nodeId) nodeId =
      some { node with
              loaded := true
              children := some [getNodeId .dirIn node.iri none (some nodeId),
                getNodeId .dirOut node.iri none (some nodeId)] } ∧
    mapGet (loadNodeChildren ds m nodeId) (getNodeId .dirIn node.iri none (some nodeId)) =
      some { type := .dirIn, iri := node.iri, loaded := false, parentNodeId := some nodeId } ∧
    mapGet (loadNodeChildren ds m nodeId) (getNodeId .dirOut node.iri none (some nodeId)) =
      some { type := .dirOut, iri := node.iri, loaded := false, parentNodeId := some nodeId } := by
  have hio : getNodeId .dirIn node.iri none (some nodeId) ≠
      getNodeId .dirOut node.iri none (some nodeId) := inId_ne_outId node.iri nodeId
  have hni : nodeId ≠ getNodeId .dirIn node.iri none (some nodeId) :=
    parent_ne_child_id .dirIn node.iri none nodeId
  have hno : nodeId ≠ getNodeId .dirOut node.iri none (some nodeId) :=
    parent_ne_child_id .dirOut node.iri none nodeId
  have hcompute : computeExpansion (QuerySource.ofDataset ds) m nodeId =
      .ok (some (mapSet (mapSet ([] : NodeMap) (getNodeId .dirIn node.iri none (some nodeId))
          { type := .dirIn, iri := node.iri, loaded := false, parentNodeId := some nodeId })
          (getNodeId .dirOut node.iri none (some nodeId))
          { type := .dirOut, iri := node.iri, loaded := false, parentNodeId := some nodeId },
        [getNodeId .dirIn node.iri none (some nodeId),
          getNodeId .dirOut node.iri none (some nodeId)])) := by
    simp [computeExpansion, hget, hloaded, htype]
  obtain ⟨h1, h2⟩ := runQ_of_compute_some _ _ _ _ hcompute
  have hnnget : mapGet (mapSet (mapSet ([] : NodeMap) (getNodeId .dirIn node.iri none (some nodeId))
      { type := .dirIn, iri := node.iri, loaded := false, parentNodeId := some nodeId })
      (getNodeId .dirOut node.iri none (some nodeId))
      { type := .dirOut, iri := node.iri, loaded := false, parentNodeId := some nodeId })
      nodeId = none := by
    rw [mapGet_mapSet_ne _ _ _ _ hno, mapGet_mapSet_ne _ _ _ _ hni]
    rfl
  have hnnnd : (keys (mapSet (mapSet ([] : NodeMap)
      (getNodeId .dirIn node.iri none (some nodeId))
      { type := .dirIn, iri := node.iri, loaded := false, parentNodeId := some nodeId })
      (getNodeId .dirOut node.iri none (some nodeId))
      { type := .dirOut, iri := node.iri, loaded := false, parentNodeId := some nodeId })).Nodup := by
    apply nodup_keys_mapSet
    apply nodup_keys_mapSet
    simp [keys]
  have hcommit := commitExpansion_eq m nodeId
    (mapSet (mapSet ([] : NodeMap) (getNodeId .dirIn node.iri none (some nodeId))
      ({ type := .dirIn, iri := node.iri, loaded := false,
         parentNodeId := some nodeId } : NodeData))
      (getNodeId .dirOut node.iri none (some nodeId))
      ({ type := .dirOut, iri := node.iri, loaded := false,
         parentNodeId := some nodeId } : NodeData))
    [getNodeId .dirIn node.iri none (some nodeId),
      getNodeId .dirOut node.iri none (some nodeId)]
    node hnnget hnnnd hget hsingle
  have hload : loadNodeChildren ds m nodeId =
      mapSet (insertAll m (mapSet (mapSet ([] : NodeMap)
          (getNodeId .dirIn node.iri none (some nodeId))
          { type := .dirIn, iri := node.iri, loaded := false, parentNodeId := some nodeId })
          (getNodeId .dirOut node.iri none (some nodeId))
          { type := .dirOut, iri := node.iri, loaded := false, parentNodeId := some nodeId }))
        nodeId
        { node with
            loaded := true
            children := some [getNodeId .dirIn node.iri none (some nodeId),
              getNodeId .dirOut node.iri none (some nodeId)] } := by
    rw [loadNodeChildren, h2, hcommit]
  refine ⟨?_, ?_, ?_, ?_⟩
  · rw [loadNodeChildren, h2]
    exact h1
  · rw [hload]
    exact mapGet_mapSet_self _ _ _
  · rw [hload, mapGet_mapSet_ne _ _ _ _ (Ne.symm hni),
      mapGet_insertAll_nodup _ _ _ hnnnd, mapGet_mapSet_ne _ _ _ _ hio,
      mapGet_mapSet_self]
  · rw [hload, mapGet_mapSet_ne _ _ _ _ (Ne.symm hno),
      mapGet_insertAll_nodup _ _ _ hnnnd, mapGet_mapSet_self]

theorem loadOutgoingPredicates_eq_nil (ds : List Triple) (iri : String)
    (h : ∀ t ∈ ds, t.subject ≠ Term.named iri) : loadOutgoingPredicates ds iri = [] := by
  rw [List.eq_nil_iff_forall_not_mem]
  intro p hp
  rw [loadOutgoingPredicates_mem] at hp
  obtain ⟨t, ht, hs, _⟩ := hp
  exact h t ht hs

theorem loadIncomingPredicates_eq_nil (ds : List Triple) (iri : String)
    (h : ∀ t ∈ ds, t.object ≠ Term.named iri) : loadIncomingPredicates ds iri = [] := by
  rw [List.eq_nil_iff_forall_not_mem]
  intro p hp
  rw [loadIncomingPredicates_mem] at hp
  obtain ⟨t, ht, hs, _⟩ := hp
  exact h t ht hs

/-! Claim theorems. -/

/-- C2: expansion of any unloaded Root node commits without error and always
yields exactly two distinct DirectionGroup children (`in` then `out`),
irrespective of the dataset; and for an IRI with no triples at all, each of
those direction groups in turn expands, again without error, to an empty
children list. -/
theorem c2_root_invariant :
    (∀ (ds : List Triple) (m : NodeMap) (nodeId : NodeId) (node : NodeData),
      mapGet m nodeId = some node → node.type = .root → node.loaded = false →
      node.singleLiteralValue = none →
      tryLoadNodeChildren (QuerySource.ofDataset ds) m nodeId =
        .ok (loadNodeChildren ds m nodeId) ∧
      getNodeId .dirIn node.iri none (some nodeId) ≠
        getNodeId .dirOut node.iri none (some nodeId) ∧
      mapGet (loadNodeChildren ds m nodeId) nodeId =
        some { node with
                loaded := true
                children := some [getNodeId .dirIn node.iri none (some nodeId),
                  getNodeId .dirOut node.iri none (some nodeId)] } ∧
      mapGet (loadNodeChildren ds m nodeId)
          (getNodeId .dirIn node.iri none (some nodeId)) =
        some { type := .dirIn, iri := node.iri, loaded := false,
               parentNodeId := some nodeId } ∧
      mapGet (loadNodeChildren ds m nodeId)
          (getNodeId .dirOut node.iri none (some nodeId)) =
        some { type := .dirOut, iri := node.iri, loaded := false,
               parentNodeId := some nodeId }) ∧
    (∀ (ds : List Triple) (m : NodeMap) (nodeId : NodeId) (node : NodeData),
      mapGet m nodeId = some node → (node.type = .dirIn ∨ node.type = .dirOut) →
      node.loaded = false → node.singleLiteralValue = none →
      (∀ t ∈ ds, t.subject ≠ Term.named node.iri ∧ t.object ≠ Term.named node.iri) →
      tryLoadNodeChildren (QuerySource.ofDataset ds) m nodeId =
        .ok (loadNodeChildren ds m nodeId) ∧
      mapGet (loadNodeChildren ds m nodeId) nodeId =
        some { node with loaded := true, children := some [] }) := by
  constructor
  · intro ds m nodeId node hget htype hloaded hsingle
    obtain ⟨h1, h2, h3, h4⟩ := root_load ds m nodeId node hget htype hloaded hsingle
    exact ⟨h1, inId_ne_outId node.iri nodeId, h2, h3, h4⟩
  · intro ds m nodeId node hget htype hloaded hsingle hempty
    rcases htype with htype | htype
    · obtain ⟨h1, h2, _⟩ := dirIn_load ds m nodeId node hget htype hloaded hsingle
      rw [loadIncomingPredicates_eq_nil ds node.iri (fun t ht => (hempty t ht).2)] at h2
      simp only [List.map_nil] at h2
      exact ⟨h1, h2⟩
    · obtain ⟨h1, h2, _⟩ := dirOut_load ds m nodeId node hget htype hloaded hsingle
      rw [loadOutgoingPredicates_eq_nil ds node.iri (fun t ht => (hempty t ht).1)] at h2
      simp only [List.map_nil] at h2
      exact ⟨h1, h2⟩

theorem c2_root_invariant_witness :
    mapGet [("n", ({ type := .root, iri := "ex:a", loaded := false } : NodeData))] "n" =
      some { type := .root, iri := "ex:a", loaded := false } ∧
    mapGet (loadNodeChildren []
        [("n", { type := .root, iri := "ex:a", loaded := false })] "n")
        (getNodeId .dirIn "ex:a" none (some "n")) =
      some { type := .dirIn, iri := "ex:a", loaded := false, parentNodeId := some "n" } :=
  ⟨rfl,
    (c2_root_invariant.1 [] [("n", { type := .root, iri := "ex:a", loaded := false })] "n"
      { type := .root, iri := "ex:a", loaded := false } rfl rfl rfl rfl).2.2.2.1⟩

/-- C3: expanding an unloaded DirectionGroup commits without error and its
children are exactly one unloaded PredicateGroup per distinct predicate of
the triples matching the direction's pattern ((iri, *, *) for out,
(*, *, iri) for in), with the predicate list deduplicated and sorted
lexicographically and the child ids pairwise distinct. -/
theorem c3_direction_group_children :
    (∀ (ds : List Triple) (m : NodeMap) (nodeId : NodeId) (node : NodeData),
      mapGet m nodeId = some node → node.type = .dirOut → node.loaded = false →
      node.singleLiteralValue = none →
      tryLoadNodeChildren (QuerySource.ofDataset ds) m nodeId =
        .ok (loadNodeChildren ds m nodeId) ∧
      mapGet (loadNodeChildren ds m nodeId) nodeId =
        some { node with
                loaded := true
                children := some ((loadOutgoingPredicates ds node.iri).map
                  (fun p => getNodeId .pred node.iri (some p) (some nodeId))) } ∧
      (∀ p ∈ loadOutgoingPredicates ds node.iri,
        mapGet (loadNodeChildren ds m nodeId)
            (getNodeId .pred node.iri (some p) (some nodeId)) =
          some (predicateRecord nodeId node.iri .outDir p)) ∧
      (loadOutgoingPredicates ds node.iri).Nodup ∧
      List.Sorted (fun a b : String => a ≤ b) (loadOutgoingPredicates ds node.iri) ∧
      (∀ p, p ∈ loadOutgoingPredicates ds node.iri ↔
        ∃ t ∈ ds, t.subject = Term.named node.iri ∧ t.predicate.value = p) ∧
      ((loadOutgoingPredicates ds node.iri).map
        (fun p => getNodeId .pred node.iri (some p) (some nodeId))).Nodup) ∧
    (∀ (ds : List Triple) (m : NodeMap) (nodeId : NodeId) (node : NodeData),
      mapGet m nodeId = some node → node.type = .dirIn → node.loaded = false →
      node.singleLiteralValue = none →
      tryLoadNodeChildren (QuerySource.ofDataset ds) m nodeId =
        .ok (loadNodeChildren ds m nodeId) ∧
      mapGet (loadNodeChildren ds m nodeId) nodeId =
        some { node with
                loaded := true
                children := some ((loadIncomingPredicates ds node.iri).map
                  (fun p => getNodeId .pred node.iri (some p) (some nodeId))) } ∧
      (∀ p ∈ loadIncomingPredicates ds node.iri,
        mapGet (loadNodeChildren ds m nodeId)
            (getNodeId .pred node.iri (some p) (some nodeId)) =
          some (predicateRecord nodeId node.iri .inDir p)) ∧
      (loadIncomingPredicates ds node.iri).Nodup ∧
      List.Sorted (fun a b : String => a ≤ b) (loadIncomingPredicates ds node.iri) ∧
      (∀ p, p ∈ loadIncomingPredicates ds node.iri ↔
        ∃ t ∈ ds, t.object = Term.named node.iri ∧ t.predicate.value = p) ∧
      ((loadIncomingPredicates ds node.iri).map
        (fun p => getNodeId .pred node.iri (some p) (some nodeId))).Nodup) := by
  constructor
  · intro ds m nodeId node hget htype hloaded hsingle
    obtain ⟨h1, h2, h3⟩ := dirOut_load ds m nodeId node hget htype hloaded hsingle
    refine ⟨h1, h2, h3, loadOutgoingPredicates_nodup ds node.iri,
      loadOutgoingPredicates_sorted ds node.iri,
      fun p => loadOutgoingPredicates_mem ds node.iri p, ?_⟩
    exact List.Nodup.map (fun a b e => predId_injective node.iri nodeId e)
      (loadOutgoingPredicates_nodup ds node.iri)
  · intro ds m nodeId node hget htype hloaded hsingle
    obtain ⟨h1, h2, h3⟩ := dirIn_load ds m nodeId node hget htype hloaded hsingle
    refine ⟨h1, h2, h3, loadIncomingPredicates_nodup ds node.iri,
      loadIncomingPredicates_sorted ds node.iri,
      fun p => loadIncomingPredicates_mem ds node.iri p, ?_⟩
    exact List.Nodup.map (fun a b e => predId_injective node.iri nodeId e)
      (loadIncomingPredicates_nodup ds node.iri)

theorem c3_direction_group_children_witness :
    mapGet [("o", ({ type := .dirOut, iri := "ex:a", loaded := false } : NodeData))] "o" =
      some { type := .dirOut, iri := "ex:a", loaded := false } ∧
    mapGet
        (loadNodeChildren
          [{ subject := .named "ex:a", predicate := .named "ex:q", object := .named "ex:b" },
           { subject := .named "ex:a", predicate := .named "ex:p", object := .literal "x" }]
          [("o", { type := .dirOut, iri := "ex:a", loaded := false })] "o") "o" =
      some { type := .dirOut, iri := "ex:a", loaded := true,
             children := some ((loadOutgoingPredicates
                 [{ subject := .named "ex:a", predicate := .named "ex:q",
                    object := .named "ex:b" },
                  { subject := .named "ex:a", predicate := .named "ex:p",
                    object := .literal "x" }] "ex:a").map
               (fun p => getNodeId .pred "ex:a" (some p) (some "o"))) } :=
  ⟨rfl,
    (c3_direction_group_children.1
      [{ subject := .named "ex:a", predicate := .named "ex:q", object := .named "ex:b" },
       { subject := .named "ex:a", predicate := .named "ex:p", object := .literal "x" }]
      [("o", { type := .dirOut, iri := "ex:a", loaded := false })] "o"
      { type := .dirOut, iri := "ex:a", loaded := false } rfl rfl rfl rfl).2.1⟩

/-- C6: a node whose record is already `loaded` is left untouched by a
second (sequential) expansion: the whole node map — in particular the
node's children list — is unchanged, both in the general browser and in
the specialized traversal. -/
theorem c6_idempotence :
    (∀ (qs : QuerySource) (m : NodeMap) (nodeId : NodeId) (node : NodeData),
      mapGet m nodeId = some node → node.loaded = true →
      loadNodeChildrenQ qs m nodeId = m) ∧
    (∀ (ds : List Triple) (m : NodeMap) (nodeId : NodeId) (node : NodeData),
      mapGet m nodeId = some node → node.loaded = true →
      loadNodeChildren ds m nodeId = m) ∧
    (∀ (ds : List Triple) (direction : Direction) (predicateIri : String)
      (nodes : SpecMap) (iri : String) (node : SpecializedNode),
      mapGet nodes iri = some node → node.loaded = true →
      loadNode ds direction predicateIri nodes iri = nodes) := by
  have hQ : ∀ (qs : QuerySource) (m : NodeMap) (nodeId : NodeId) (node : NodeData),
      mapGet m nodeId = some node → node.loaded = true →
      loadNodeChildrenQ qs m nodeId = m := by
    intro qs m nodeId node hget hloaded
    have hcompute : computeExpansion qs m nodeId = .ok none := by
      simp [computeExpansion, hget, hloaded]
    exact (runQ_of_compute_none qs m nodeId hcompute).2
  refine ⟨hQ, fun ds m nodeId node hget hloaded => hQ _ m nodeId node hget hloaded, ?_⟩
  intro ds direction predicateIri nodes iri node hget hloaded
  simp [loadNode, specializedWriteBack, hget, hloaded]

theorem c6_idempotence_witness :
    mapGet [("n", ({ type := .root, iri := "ex:a", loaded := true, children := some [] } : NodeData))] "n" =
      some { type := .root, iri := "ex:a", loaded := true, children := some [] } ∧
    loadNodeChildren []
        [("n", { type := .root, iri := "ex:a", loaded := true, children := some [] })] "n" =
      [("n", { type := .root, iri := "ex:a", loaded := true, children := some [] })] ∧
    loadNode [] .outDir "ex:p"
        [("ex:b", { iri := "ex:b", loaded := true, children := some [] })] "ex:b" =
      [("ex:b", { iri := "ex:b", loaded := true, children := some [] })] :=
  ⟨rfl,
    c6_idempotence.2.1 []
      [("n", { type := .root, iri := "ex:a", loaded := true, children := some [] })] "n"
      { type := .root, iri := "ex:a", loaded := true, children := some [] } rfl rfl,
    c6_idempotence.2.2 [] .outDir "ex:p"
      [("ex:b", { iri := "ex:b", loaded := true, children := some [] })] "ex:b"
      { iri := "ex:b", loaded := true, children := some [] } rfl rfl⟩

/-- C7: a throwing pattern query aborts only the expansion in progress:
the catch branch leaves the node map exactly as it was (the target node's
record — in particular its unloaded status — and every other record are
untouched, and no discovered child records are committed), and a later
re-trigger against a working dataset source is just a normal expansion. -/
theorem c7_error_atomicity :
    (∀ (qs : QuerySource) (m : NodeMap) (nodeId : NodeId) (e : String),
      tryLoadNodeChildren qs m nodeId = .error e →
      loadNodeChildrenQ qs m nodeId = m ∧
      ∀ k, mapGet (loadNodeChildrenQ qs m nodeId) k = mapGet m k) ∧
    (∀ (ds : List Triple) (m : NodeMap) (nodeId : NodeId),
      loadNodeChildrenQ (QuerySource.ofDataset ds) m nodeId = loadNodeChildren ds m nodeId) := by
  constructor
  · intro qs m nodeId e h
    have h1 : loadNodeChildrenQ qs m nodeId = m := by
      rw [loadNodeChildrenQ, h]
    exact ⟨h1, fun k => by rw [h1]⟩
  · intro ds m nodeId
    rfl

theorem c7_error_atomicity_witness :
    tryLoadNodeChildren
        {
          loadOutgoingPredicates := fun _ => .error "boom"
          loadIncomingPredicates := fun _ => .error "boom"
          loadObjects := fun _ _ => .error "boom"
          loadSubjects := fun _ _ => .error "boom" }
        [("o", { type := .dirOut, iri := "ex:a", loaded := false })] "o" =
      .error "boom" ∧
    loadNodeChildrenQ
        {
          loadOutgoingPredicates := fun _ => .error "boom"
          loadIncomingPredicates := fun _ => .error "boom"
          loadObjects := fun _ _ => .error "boom"
          loadSubjects := fun _ _ => .error "boom" }
        [("o", { type := .dirOut, iri := "ex:a", loaded := false })] "o" =
      [("o", { type := .dirOut, iri := "ex:a", loaded := false })] :=
  ⟨rfl,
    (c7_error_atomicity.1
      {
          loadOutgoingPredicates := fun _ => .error "boom"
          loadIncomingPredicates := fun _ => .error "boom"
          loadObjects := fun _ _ => .error "boom"
          loadSubjects := fun _ _ => .error "boom" }
      [("o", { type := .dirOut, iri := "ex:a", loaded := false })] "o" "boom" rfl).1⟩

/-- C10 counterexample: `fillFocusedInput` is guarded by JS truthiness, so a
recorded last-focused id that is the empty string (which is not null) leaves
the state unchanged instead of setting the empty-named field entry. -/
theorem c10_fill_focused_counterexample :
    ({ bookmarks := [], fieldStates := [],
       lastFocusedInputId := some "" } : BookmarkState).lastFocusedInputId ≠ none ∧
    fillFocusedInput
        { bookmarks := [], fieldStates := [], lastFocusedInputId := some "" } "x" =
      { bookmarks := [], fieldStates := [], lastFocusedInputId := some "" } ∧
    mapGet (fillFocusedInput
        { bookmarks := [], fieldStates := [], lastFocusedInputId := some "" } "x").fieldStates
        "" = none := by
  decide

/-- C10 (amended): `fillFocusedInput(iri)` leaves the whole state unchanged
when `lastFocusedInputId` is null or the empty string; otherwise it sets
exactly the last-focused field entry to `iri`, leaving the bookmarks list,
`lastFocusedInputId` and every other field entry unchanged. -/
theorem c10_fill_focused_frame :
    (∀ (s : BookmarkState) (iri : String),
      s.lastFocusedInputId = none ∨ s.lastFocusedInputId = some "" →
      fillFocusedInput s iri = s) ∧
    (∀ (s : BookmarkState) (iri fid : String),
      s.lastFocusedInputId = some fid → fid ≠ "" →
      (fillFocusedInput s iri).bookmarks = s.bookmarks ∧
      (fillFocusedInput s iri).lastFocusedInputId = s.lastFocusedInputId ∧
      mapGet (fillFocusedInput s iri).fieldStates fid = some iri ∧
      ∀ k, k ≠ fid → mapGet (fillFocusedInput s iri).fieldStates k =
        mapGet s.fieldStates k) := by
  constructor
  · intro s iri h
    rcases h with h | h <;> simp [fillFocusedInput, h]
  · intro s iri fid h hfid
    refine ⟨?_, ?_, ?_, ?_⟩
    · simp [fillFocusedInput, h, hfid]
    · simp [fillFocusedInput, h, hfid]
    · simp only [fillFocusedInput, h, if_neg hfid]
      exact mapGet_mapSet_self _ _ _
    · intro k hk
      simp only [fillFocusedInput, h, if_neg hfid]
      exact mapGet_mapSet_ne _ _ _ _ hk

theorem c10_fill_focused_frame_witness :
    fillFocusedInput
        { bookmarks := [], fieldStates := [("a", "old")], lastFocusedInputId := none } "x" =
      { bookmarks := [], fieldStates := [("a", "old")], lastFocusedInputId := none } ∧
    mapGet (fillFocusedInput
        { bookmarks := [], fieldStates := [("a", "old"), ("b", "keep")],
          lastFocusedInputId := some "a" } "x").fieldStates "a" = some "x" :=
  ⟨c10_fill_focused_frame.1
      { bookmarks := [], fieldStates := [("a", "old")], lastFocusedInputId := none } "x"
      (Or.inl rfl),
    (c10_fill_focused_frame.2
      { bookmarks := [], fieldStates := [("a", "old"), ("b", "keep")],
        lastFocusedInputId := some "a" } "x" "a" rfl (by decide)).2.2.1⟩

/-! Predicate-branch (out direction) expansion lemmas. -/

theorem predOut_single_literal (ds : List Triple) (m : NodeMap) (nodeId : NodeId)
    (node : NodeData) (p : String) (obj : ObjInfo)
    (hget : mapGet m nodeId = some node) (htype : node.type = .pred)
    (hloaded : node.loaded = false)
    (hpt : node.parentType = some .outDir) (hiri : node.iri ≠ "")
    (hpred : node.predicate = some p) (hp : p ≠ "")
    (hobj : loadObjects ds node.iri p 100 = [obj]) (hlit : obj.isLiteral = true) :
    tryLoadNodeChildren (QuerySource.ofDataset ds) m nodeId =
      .ok (loadNodeChildren ds m nodeId) ∧
    loadNodeChildren ds m nodeId =
      mapSet m nodeId
        { node with
            loaded := true
            singleLiteralValue := some obj.value
            objectInfo := some [obj]
            children := some [] } ∧
    mapGet (loadNodeChildren ds m nodeId) nodeId =
      some { node with
              loaded := true
              singleLiteralValue := some obj.value
              objectInfo := some [obj]
              children := some [] } ∧
    ∀ k, k ≠ nodeId → mapGet (loadNodeChildren ds m nodeId) k = mapGet m k := by
  have hcompute : computeExpansion (QuerySource.ofDataset ds) m nodeId =
      .ok (some ([(nodeId,
        { node with
            loaded := true
            singleLiteralValue := some obj.value
            objectInfo := some [obj]
            children := some [] })], ([] : List NodeId))) := by
    simp [computeExpansion, hget, hloaded, htype, hpred, hpt, hiri, hp, hobj, hlit,
      QuerySource.ofDataset, strTruthy, mapGet]
  obtain ⟨h1, h2⟩ := runQ_of_compute_some _ _ _ _ hcompute
  have hcommit : commitExpansion m nodeId
      [(nodeId,
        { node with
            loaded := true
            singleLiteralValue := some obj.value
            objectInfo := some [obj]
            children := some [] })] ([] : List NodeId) =
      mapSet m nodeId
        { node with
            loaded := true
            singleLiteralValue := some obj.value
            objectInfo := some [obj]
            children := some [] } := by
    rw [commitExpansion]
    show (match mapGet (insertAll m [(nodeId, _)]) nodeId with
      | some u => if u.singleLiteralValue = none then _ else insertAll m _
      | none => insertAll m _) = _
    rw [insertAll, insertAll, mapGet_mapSet_self]
    simp
  have hload : loadNodeChildren ds m nodeId =
      mapSet m nodeId
        { node with
            loaded := true
            singleLiteralValue := some obj.value
            objectInfo := some [obj]
            children := some [] } := by
    rw [loadNodeChildren, h2, hcommit]
  refine ⟨by rw [loadNodeChildren, h2]; exact h1, hload, ?_, ?_⟩
  · rw [hload]
    exact mapGet_mapSet_self _ _ _
  · intro k hk
    rw [hload]
    exact mapGet_mapSet_ne _ _ _ _ hk

theorem predOut_multi_literal (ds : List Triple) (m : NodeMap) (nodeId : NodeId)
    (node : NodeData) (p : String) (objs : List ObjInfo)
    (hget : mapGet m nodeId = some node) (htype : node.type = .pred)
    (hloaded : node.loaded = false) (hsingle : node.singleLiteralValue = none)
    (hpt : node.parentType = some .outDir) (hiri : node.iri ≠ "")
    (hpred : node.predicate = some p) (hp : p ≠ "")
    (hobj : loadObjects ds node.iri p 100 = objs)
    (hall : objs.all (fun o => o.isLiteral) = true) (hlen : 1 < objs.length) :
    tryLoadNodeChildren (QuerySource.ofDataset ds) m nodeId =
      .ok (loadNodeChildren ds m nodeId) ∧
    mapGet (loadNodeChildren ds m nodeId) nodeId =
      some { node with
              loaded := true
              objectInfo := some objs
              children := some (objs.map
                (fun obj => getNodeId .obj obj.value none (some nodeId))) } ∧
    ∀ obj ∈ objs,
      mapGet (loadNodeChildren ds m nodeId) (getNodeId .obj obj.value none (some nodeId)) =
        some (literalValueRecord nodeId obj) := by
  have hlen1 : ¬(objs.length = 1) := by omega
  have hcompute : computeExpansion (QuerySource.ofDataset ds) m nodeId =
      .ok (some (mapSet (discoverFoldAux
          (fun obj => getNodeId .obj obj.value none (some nodeId))
          (fun obj => literalValueRecord nodeId obj) ([], []) objs).1 nodeId
          { node with objectInfo := some objs },
        (discoverFoldAux (fun obj => getNodeId .obj obj.value none (some nodeId))
          (fun obj => literalValueRecord nodeId obj) ([], []) objs).2)) := by
    have hnnget0 : mapGet (discoverFoldAux
        (fun obj => getNodeId .obj obj.value none (some nodeId))
        (fun obj => literalValueRecord nodeId obj) ([], []) objs).1 nodeId = none := by
      rw [discoverFoldAux_get_not_mem _ _ _ _ _
        (fun a _ => parent_ne_child_id .obj a.value none nodeId)]
      rfl
    simp [computeExpansion, hget, hloaded, htype, hpred, hpt, hiri, hp, hobj, hall,
      hlen, hlen1, QuerySource.ofDataset, strTruthy, discoverFold, hnnget0]
  obtain ⟨h1, h2⟩ := runQ_of_compute_some _ _ _ _ hcompute
  have hnnget0 : mapGet (discoverFoldAux
      (fun obj => getNodeId .obj obj.value none (some nodeId))
      (fun obj => literalValueRecord nodeId obj) ([], []) objs).1 nodeId = none := by
    rw [discoverFoldAux_get_not_mem _ _ _ _ _
      (fun a _ => parent_ne_child_id .obj a.value none nodeId)]
    rfl
  have hnnget : mapGet (mapSet (discoverFoldAux
      (fun obj => getNodeId .obj obj.value none (some nodeId))
      (fun obj => literalValueRecord nodeId obj) ([], []) objs).1 nodeId
      { node with objectInfo := some objs }) nodeId =
      some { node with objectInfo := some objs } := mapGet_mapSet_self _ _ _
  have hnnnd : (keys (mapSet (discoverFoldAux
      (fun obj => getNodeId .obj obj.value none (some nodeId))
      (fun obj => literalValueRecord nodeId obj) ([], []) objs).1 nodeId
      { node with objectInfo := some objs })).Nodup := by
    apply nodup_keys_mapSet
    apply discoverFoldAux_keys_nodup
    simp [keys]
  have hload : loadNodeChildren ds m nodeId =
      mapSet (insertAll m (mapSet (discoverFoldAux
          (fun obj => getNodeId .obj obj.value none (some nodeId))
          (fun obj => literalValueRecord nodeId obj) ([], []) objs).1 nodeId
          { node with objectInfo := some objs })) nodeId
        { node with
            loaded := true
            objectInfo := some objs
            children := some ((discoverFoldAux
              (fun obj => getNodeId .obj obj.value none (some nodeId))
              (fun obj => literalValueRecord nodeId obj) ([], []) objs).2) } := by
    rw [loadNodeChildren, h2, commitExpansion]
    show (match mapGet (insertAll m _) nodeId with
      | some u => if u.singleLiteralValue = none then _ else _
      | none => _) = _
    rw [mapGet_insertAll_nodup _ _ _ hnnnd, hnnget]
    simp [hsingle]
  have hsnd : (discoverFoldAux (fun obj => getNodeId .obj obj.value none (some nodeId))
      (fun obj => literalValueRecord nodeId obj) ([], []) objs).2 =
      objs.map (fun obj => getNodeId .obj obj.value none (some nodeId)) := by
    simp [discoverFoldAux_snd]
  refine ⟨by rw [loadNodeChildren, h2]; exact h1, ?_, ?_⟩
  · rw [hload, hsnd]
    exact mapGet_mapSet_self _ _ _
  · intro obj hobjmem
    rw [hload]
    rw [mapGet_mapSet_ne _ _ _ _
      (fun e => parent_ne_child_id .obj obj.value none nodeId e.symm)]
    rw [mapGet_insertAll_nodup _ _ _ hnnnd]
    have hmk : mapGet (mapSet (discoverFoldAux
        (fun obj => getNodeId .obj obj.value none (some nodeId))
        (fun obj => literalValueRecord nodeId obj) ([], []) objs).1 nodeId
        { node with objectInfo := some objs })
        (getNodeId .obj obj.value none (some nodeId)) =
        some (literalValueRecord nodeId obj) := by
      rw [mapGet_mapSet_ne _ _ _ _
        (fun e => parent_ne_child_id .obj obj.value none nodeId e.symm)]
      exact discoverFoldAux_get_mem _ _ _ _ obj hobjmem
        (fun b _ e => by simp [literalValueRecord, objId_injective nodeId e])
        (Or.inl rfl)
    rw [hmk]

theorem predOut_mixed (ds : List Triple) (m : NodeMap) (nodeId : NodeId)
    (node : NodeData) (p : String) (objs : List ObjInfo)
    (hget : mapGet m nodeId = some node) (htype : node.type = .pred)
    (hloaded : node.loaded = false) (hsingle : node.singleLiteralValue = none)
    (hpt : node.parentType = some .outDir) (hiri : node.iri ≠ "")
    (hpred : node.predicate = some p) (hp : p ≠ "")
    (hobj : loadObjects ds node.iri p 100 = objs)
    (hc1 : ¬(objs.all (fun o => o.isLiteral) = true ∧ objs.length = 1))
    (hc2 : ¬(objs.all (fun o => o.isLiteral) = true ∧ 1 < objs.length)) :
    tryLoadNodeChildren (QuerySource.ofDataset ds) m nodeId =
      .ok (loadNodeChildren ds m nodeId) ∧
    mapGet (loadNodeChildren ds m nodeId) nodeId =
      some { node with
              loaded := true
              objectInfo := some objs
              children := some ((discoverFoldAux
                (fun obj => getNodeId .obj obj.value none (some nodeId))
                (fun obj => mixedValueRecord nodeId obj) ([], []) objs).2) } ∧
    (discoverFoldAux (fun obj => getNodeId .obj obj.value none (some nodeId))
      (fun obj => mixedValueRecord nodeId obj) ([], []) objs).2 =
      objs.map (fun obj => getNodeId .obj obj.value none (some nodeId)) := by
  have hcompute : computeExpansion (QuerySource.ofDataset ds) m nodeId =
      .ok (some (mapSet (discoverFoldAux
          (fun obj => getNodeId .obj obj.value none (some nodeId))
          (fun obj => mixedValueRecord nodeId obj) ([], []) objs).1 nodeId
          { node with objectInfo := some objs },
        (discoverFoldAux (fun obj => getNodeId .obj obj.value none (some nodeId))
          (fun obj => mixedValueRecord nodeId obj) ([], []) objs).2)) := by
    have hnnget0 : mapGet (discoverFoldAux
        (fun obj => getNodeId .obj obj.value none (some nodeId))
        (fun obj => mixedValueRecord nodeId obj) ([], []) objs).1 nodeId = none := by
      rw [discoverFoldAux_get_not_mem _ _ _ _ _
        (fun a _ => parent_ne_child_id .obj a.value none nodeId)]
      rfl
    have hc1' : ¬((∀ x ∈ objs, x.isLiteral = true) ∧ objs.length = 1) := by
      simpa [List.all_eq_true] using hc1
    have hc2' : ¬((∀ x ∈ objs, x.isLiteral = true) ∧ 1 < objs.length) := by
      simpa [List.all_eq_true] using hc2
    simp [computeExpansion, hget, hloaded, htype, hpred, hpt, hiri, hp, hobj,
      QuerySource.ofDataset, strTruthy, discoverFold, hnnget0, hc1', hc2']
  obtain ⟨h1, h2⟩ := runQ_of_compute_some _ _ _ _ hcompute
  have hnnget : mapGet (mapSet (discoverFoldAux
      (fun obj => getNodeId .obj obj.value none (some nodeId))
      (fun obj => mixedValueRecord nodeId obj) ([], []) objs).1 nodeId
      { node with objectInfo := some objs }) nodeId =
      some { node with objectInfo := some objs } := mapGet_mapSet_self _ _ _
  have hnnnd : (keys (mapSet (discoverFoldAux
      (fun obj => getNodeId .obj obj.value none (some nodeId))
      (fun obj => mixedValueRecord nodeId obj) ([], []) objs).1 nodeId
      { node with objectInfo := some objs })).Nodup := by
    apply nodup_keys_mapSet
    apply discoverFoldAux_keys_nodup
    simp [keys]
  have hload : loadNodeChildren ds m nodeId =
      mapSet (insertAll m (mapSet (discoverFoldAux
          (fun obj => getNodeId .obj obj.value none (some nodeId))
          (fun obj => mixedValueRecord nodeId obj) ([], []) objs).1 nodeId
          { node with objectInfo := some objs })) nodeId
        { node with
            loaded := true
            objectInfo := some objs
            children := some ((discoverFoldAux
              (fun obj => getNodeId .obj obj.value none (some nodeId))
              (fun obj => mixedValueRecord nodeId obj) ([], []) objs).2) } := by
    rw [loadNodeChildren, h2, commitExpansion]
    show (match mapGet (insertAll m _) nodeId with
      | some u => if u.singleLiteralValue = none then _ else _
      | none => _) = _
    rw [mapGet_insertAll_nodup _ _ _ hnnnd, hnnget]
    simp [hsingle]
  refine ⟨by rw [loadNodeChildren, h2]; exact h1, ?_, ?_⟩
  · rw [hload]
    exact mapGet_mapSet_self _ _ _
  · simp [discoverFoldAux_snd]

theorem objLiteral_load (ds : List Triple) (m : NodeMap) (nodeId : NodeId)
    (node : NodeData) (hget : mapGet m nodeId = some node) (htype : node.type = .obj)
    (hlit : node.isLiteral = some true) (hloaded : node.loaded = false)
    (hsingle : node.singleLiteralValue = none) :
    tryLoadNodeChildren (QuerySource.ofDataset ds) m nodeId =
      .ok (loadNodeChildren ds m nodeId) ∧
    mapGet (loadNodeChildren ds m nodeId) nodeId =
      some { node with loaded := true, children := some [] } ∧
    ∀ k, k ≠ nodeId → mapGet (loadNodeChildren ds m nodeId) k = mapGet m k := by
  have hcompute : computeExpansion (QuerySource.ofDataset ds) m nodeId =
      .ok (some ([(nodeId, { node with loaded := true, children := some [] })],
        ([] : List NodeId))) := by
    simp [computeExpansion, hget, hloaded, htype, hlit]
  obtain ⟨h1, h2⟩ := runQ_of_compute_some _ _ _ _ hcompute
  have hload : loadNodeChildren ds m nodeId =
      mapSet (mapSet m nodeId { node with loaded := true, children := some [] }) nodeId
        { node with loaded := true, children := some [] } := by
    rw [loadNodeChildren, h2, commitExpansion]
    show (match mapGet (insertAll m [(nodeId, _)]) nodeId with
      | some u => if u.singleLiteralValue = none then _ else insertAll m _
      | none => insertAll m _) = _
    rw [insertAll, insertAll, mapGet_mapSet_self]
    simp [hsingle]
  refine ⟨by rw [loadNodeChildren, h2]; exact h1, ?_, ?_⟩
  · rw [hload]
    exact mapGet_mapSet_self _ _ _
  · intro k hk
    rw [hload, mapGet_mapSet_ne _ _ _ _ hk, mapGet_mapSet_ne _ _ _ _ hk]

/-- C1: the literal collapse policy of the out-direction predicate branch.
With exactly one retained result that is a literal, the PredicateGroup node
is collapsed: the literal is stored directly on it, it becomes loaded with
an empty children list, and no other map entry is touched (in particular no
Value node is created).  With two or more retained results that are all
literals, one terminal (isLiteral) Value node is materialized per result
and the PredicateGroup is marked loaded — not collapsed — with those Value
nodes as its children.  A literal Value node itself expands to an empty
children list (it is terminal). -/
theorem c1_literal_collapse :
    (∀ (ds : List Triple) (m : NodeMap) (nodeId : NodeId) (node : NodeData)
      (p : String) (obj : ObjInfo),
      mapGet m nodeId = some node → node.type = .pred → node.loaded = false →
      node.parentType = some .outDir → node.iri ≠ "" →
      node.predicate = some p → p ≠ "" →
      loadObjects ds node.iri p 100 = [obj] → obj.isLiteral = true →
      loadNodeChildren ds m nodeId =
        mapSet m nodeId
          { node with
              loaded := true
              singleLiteralValue := some obj.value
              objectInfo := some [obj]
              children := some [] } ∧
      mapGet (loadNodeChildren ds m nodeId) nodeId =
        some { node with
                loaded := true
                singleLiteralValue := some obj.value
                objectInfo := some [obj]
                children := some [] } ∧
      (∀ k, k ≠ nodeId → mapGet (loadNodeChildren ds m nodeId) k = mapGet m k)) ∧
    (∀ (ds : List Triple) (m : NodeMap) (nodeId : NodeId) (node : NodeData)
      (p : String) (objs : List ObjInfo),
      mapGet m nodeId = some node → node.type = .pred → node.loaded = false →
      node.singleLiteralValue = none → node.parentType = some .outDir →
      node.iri ≠ "" → node.predicate = some p → p ≠ "" →
      loadObjects ds node.iri p 100 = objs →
      objs.all (fun o => o.isLiteral) = true → 1 < objs.length →
      mapGet (loadNodeChildren ds m nodeId) nodeId =
        some { node with
                loaded := true
                objectInfo := some objs
                children := some (objs.map
                  (fun obj => getNodeId .obj obj.value none (some nodeId))) } ∧
      ∀ obj ∈ objs,
        mapGet (loadNodeChildren ds m nodeId)
            (getNodeId .obj obj.value none (some nodeId)) =
          some (literalValueRecord nodeId obj)) ∧
    (∀ (ds : List Triple) (m : NodeMap) (nodeId : NodeId) (node : NodeData),
      mapGet m nodeId = some node → node.type = .obj → node.isLiteral = some true →
      node.loaded = false → node.singleLiteralValue = none →
      mapGet (loadNodeChildren ds m nodeId) nodeId =
        some { node with loaded := true, children := some [] }) := by
  refine ⟨?_, ?_, ?_⟩
  · intro ds m nodeId node p obj hget htype hloaded hpt hiri hpred hp hobj hlit
    obtain ⟨_, hA, hB, hC⟩ :=
      predOut_single_literal ds m nodeId node p obj hget htype hloaded hpt hiri
        hpred hp hobj hlit
    exact ⟨hA, hB, hC⟩
  · intro ds m nodeId node p objs hget htype hloaded hsingle hpt hiri hpred hp hobj
      hall hlen
    obtain ⟨_, hA, hB⟩ :=
      predOut_multi_literal ds m nodeId node p objs hget htype hloaded hsingle hpt
        hiri hpred hp hobj hall hlen
    exact ⟨hA, hB⟩
  · intro ds m nodeId node hget htype hlit hloaded hsingle
    exact (objLiteral_load ds m nodeId node hget htype hlit hloaded hsingle).2.1

theorem c1_literal_collapse_witness :
    loadObjects
        [{ subject := .named "ex:a", predicate := .named "ex:p", object := .literal "x" }]
        "ex:a" "ex:p" 100 = [{ value := "x", isLiteral := true }] ∧
    mapGet (loadNodeChildren
        [{ subject := .named "ex:a", predicate := .named "ex:p", object := .literal "x" }]
        [("pg", { type := .pred, iri := "ex:a", predicate := some "ex:p",
                  loaded := false, parentType := some .outDir })] "pg") "pg" =
      some { type := .pred, iri := "ex:a", predicate := some "ex:p", loaded := true,
             children := some [], parentType := some .outDir,
             objectInfo := some [{ value := "x", isLiteral := true }],
             singleLiteralValue := some "x" } ∧
    mapGet (loadNodeChildren
        [{ subject := .named "ex:a", predicate := .named "ex:p", object := .literal "x" },
         { subject := .named "ex:a", predicate := .named "ex:p", object := .literal "y" }]
        [("pg", { type := .pred, iri := "ex:a", predicate := some "ex:p",
                  loaded := false, parentType := some .outDir })] "pg")
        (getNodeId .obj "x" none (some "pg")) =
      some (literalValueRecord "pg" { value := "x", isLiteral := true }) :=
  ⟨by decide,
    (c1_literal_collapse.1
      [{ subject := .named "ex:a", predicate := .named "ex:p", object := .literal "x" }]
      [("pg", { type := .pred, iri := "ex:a", predicate := some "ex:p",
                loaded := false, parentType := some .outDir })] "pg"
      { type := .pred, iri := "ex:a", predicate := some "ex:p",
        loaded := false, parentType := some .outDir }
      "ex:p" { value := "x", isLiteral := true }
      rfl rfl rfl rfl (by decide) rfl (by decide) (by decide) rfl).2.1,
    (c1_literal_collapse.2.1
      [{ subject := .named "ex:a", predicate := .named "ex:p", object := .literal "x" },
       { subject := .named "ex:a", predicate := .named "ex:p", object := .literal "y" }]
      [("pg", { type := .pred, iri := "ex:a", predicate := some "ex:p",
                loaded := false, parentType := some .outDir })] "pg"
      { type := .pred, iri := "ex:a", predicate := some "ex:p",
        loaded := false, parentType := some .outDir }
      "ex:p" [{ value := "x", isLiteral := true }, { value := "y", isLiteral := true }]
      rfl rfl rfl rfl rfl (by decide) rfl (by decide) (by decide) (by decide)
      (by decide)).2
      { value := "x", isLiteral := true } (by decide)⟩

theorem loadObjects_length_le (ds : List Triple) (s p : String) (limit : Nat) :
    (loadObjects ds s p limit).length ≤ limit := by
  rw [loadObjects]
  exact le_trans (List.length_filterMap_le _ _) (List.length_take_le _ _)

set_option maxRecDepth 200000 in
set_option maxHeartbeats 4000000 in
/-- C4: an out-direction PredicateGroup expansion always commits without
error and yields at most 100 children; on the 150-triple dataset
`(ex:a, ex:p, ex:v1..ex:v150)` all 150 triples match but only 100 are
retained and the expanded PredicateGroup has exactly 100 children — the
excess is silently dropped. -/
theorem c4_truncation_cap :
    (∀ (ds : List Triple) (m : NodeMap) (nodeId : NodeId) (node : NodeData) (p : String),
      mapGet m nodeId = some node → node.type = .pred → node.loaded = false →
      node.singleLiteralValue = none → node.parentType = some .outDir →
      node.iri ≠ "" → node.predicate = some p → p ≠ "" →
      tryLoadNodeChildren (QuerySource.ofDataset ds) m nodeId =
        .ok (loadNodeChildren ds m nodeId) ∧
      ∃ n, mapGet (loadNodeChildren ds m nodeId) nodeId = some n ∧ n.loaded = true ∧
        ∃ l, n.children = some l ∧ l.length ≤ 100) ∧
    (loadObjects capDataset "ex:a" "ex:p" 100).length = 100 ∧
    (matchPattern capDataset (some (.named "ex:a")) (some (.named "ex:p")) none).length
      = 150 ∧
    (mapGet (loadNodeChildren capDataset capMap "pg") "pg").map
      (fun n => (n.children.getD []).length) = some 100 := by
  refine ⟨?_, by decide, by decide, by decide⟩
  intro ds m nodeId node p hget htype hloaded hsingle hpt hiri hpred hp
  by_cases h1 : (loadObjects ds node.iri p 100).all (fun o => o.isLiteral) = true ∧
      (loadObjects ds node.iri p 100).length = 1
  · obtain ⟨obj, hobjeq⟩ := List.length_eq_one.mp h1.2
    have hlit : obj.isLiteral = true := by
      exact List.all_eq_true.mp h1.1 obj (by rw [hobjeq]; exact List.mem_singleton_self _)
    obtain ⟨hok, _, hB, _⟩ :=
      predOut_single_literal ds m nodeId node p obj hget htype hloaded hpt hiri
        hpred hp hobjeq hlit
    exact ⟨hok, _, hB, rfl, [], rfl, by simp⟩
  · by_cases h2 : (loadObjects ds node.iri p 100).all (fun o => o.isLiteral) = true ∧
        1 < (loadObjects ds node.iri p 100).length
    · obtain ⟨hok, hB, _⟩ :=
        predOut_multi_literal ds m nodeId node p (loadObjects ds node.iri p 100)
          hget htype hloaded hsingle hpt hiri hpred hp rfl h2.1 h2.2
      refine ⟨hok, _, hB, rfl, _, rfl, ?_⟩
      rw [List.length_map]
      exact loadObjects_length_le ds node.iri p 100
    · obtain ⟨hok, hB, hsnd⟩ :=
        predOut_mixed ds m nodeId node p (loadObjects ds node.iri p 100)
          hget htype hloaded hsingle hpt hiri hpred hp rfl h1 h2
      refine ⟨hok, _, hB, rfl, _, rfl, ?_⟩
      rw [hsnd, List.length_map]
      exact loadObjects_length_le ds node.iri p 100

theorem c4_truncation_cap_witness :
    tryLoadNodeChildren (QuerySource.ofDataset capDataset) capMap "pg" =
      .ok (loadNodeChildren capDataset capMap "pg") ∧
    (∃ n, mapGet (loadNodeChildren capDataset capMap "pg") "pg" = some n ∧
      n.loaded = true ∧ ∃ l, n.children = some l ∧ l.length ≤ 100) :=
  c4_truncation_cap.1 capDataset capMap "pg"
    { type := .pred, iri := "ex:a", predicate := some "ex:p",
      loaded := false, parentType := some .outDir } "ex:p"
    rfl rfl rfl rfl rfl (by decide) rfl (by decide)

set_option maxRecDepth 200000 in
set_option maxHeartbeats 4000000 in
/-- C9: the 100-result cap counts every matched triple, including discarded
term kinds.  On a dataset whose first match is a blank node followed by 101
retainable named objects, 101 matches are retainable yet the expansion
yields only 99 children, because the discarded blank node consumed one slot
of the cap. -/
theorem c9_cap_counts_discarded :
    (matchPattern blankCapDataset (some (.named "ex:a")) (some (.named "ex:p"))
        none).countP
      (fun t =>
        match t.object with
        | .named _ => true
        | .literal _ => true
        | .blank _ => false) = 101 ∧
    (loadObjects blankCapDataset "ex:a" "ex:p" 100).length = 99 ∧
    (mapGet (loadNodeChildren blankCapDataset capMap "pg") "pg").map
      (fun n => (n.children.getD []).length) = some 99 := by
  refine ⟨by decide, by decide, by decide⟩

/-- C5 counterexample: the general browser's write-back does not re-check
the `loaded` flag.  Both overlapping requests compute the same discovery
result from the initial snapshot; after the first write-back the discovered
value node `ex:b` is expanded (`loaded = true`), and the second request's
later-completing write-back then resets that child record to unloaded,
changing the map — the claimed no-double-write property fails. -/
theorem c5_writeback_recheck_counterexample :
    computeExpansion (QuerySource.ofDataset overlapDataset) overlapMap0 "pg" =
      .ok (some overlapResult) ∧
    (mapGet overlapMap2 (getNodeId .obj "ex:b" none (some "pg"))).map
      (fun n => n.loaded) = some true ∧
    (mapGet overlapMap2 "pg").map (fun n => n.loaded) = some true ∧
    (mapGet overlapMap3 (getNodeId .obj "ex:b" none (some "pg"))).map
      (fun n => n.loaded) = some false ∧
    overlapMap3 ≠ overlapMap2 := by
  refine ⟨by rfl, by decide, by decide, by decide, by decide⟩

/-- C5 (amended): the `loaded` flag is re-checked at write-back time in
Specialized Traversal — a later-completing write-back for an already-loaded
IRI leaves the map unchanged — whereas the general browser checks `loaded`
only when an expansion starts (an already-loaded node is never expanded
anew), and its write-back itself performs no such re-check. -/
theorem c5_writeback_recheck :
    (∀ (ds : List Triple) (prev : SpecMap) (iri : String) (label : Option String)
      (relatedNodes : List String) (existing : SpecializedNode),
      mapGet prev iri = some existing → existing.loaded = true →
      specializedWriteBack ds prev iri label relatedNodes = prev) ∧
    (∀ (qs : QuerySource) (m : NodeMap) (nodeId : NodeId) (node : NodeData),
      mapGet m nodeId = some node → node.loaded = true →
      computeExpansion qs m nodeId = .ok none) := by
  constructor
  · intro ds prev iri label relatedNodes existing hget hloaded
    simp [specializedWriteBack, hget, hloaded]
  · intro qs m nodeId node hget hloaded
    simp [computeExpansion, hget, hloaded]

theorem c5_writeback_recheck_witness :
    specializedWriteBack [] [("ex:b", { iri := "ex:b", loaded := true })] "ex:b"
        none ["ex:c"] = [("ex:b", { iri := "ex:b", loaded := true })] ∧
    computeExpansion (QuerySource.ofDataset [])
        [("n", { type := .root, iri := "ex:a", loaded := true })] "n" = .ok none :=
  ⟨c5_writeback_recheck.1 [] [("ex:b", { iri := "ex:b", loaded := true })] "ex:b"
      none ["ex:c"] { iri := "ex:b", loaded := true } rfl rfl,
    c5_writeback_recheck.2 (QuerySource.ofDataset [])
      [("n", { type := .root, iri := "ex:a", loaded := true })] "n"
      { type := .root, iri := "ex:a", loaded := true } rfl rfl⟩

/-! Identity-memoization invariant of the specialized traversal. -/

theorem mem_mapSet_sub {α : Type} (m : List (String × α)) (k : String) (v : α) :
    ∀ x ∈ mapSet m k v, x = (k, v) ∨ x ∈ m := by
  induction m with
  | nil =>
    intro x hx
    simp [mapSet] at hx
    exact Or.inl hx
  | cons kv rest ih =>
    intro x hx
    by_cases hk : kv.1 = k
    · simp only [mapSet, if_pos hk] at hx
      rcases List.mem_cons.mp hx with h | h
      · exact Or.inl h
      · exact Or.inr (List.mem_cons_of_mem _ h)
    · simp only [mapSet, if_neg hk] at hx
      rcases List.mem_cons.mp hx with h | h
      · exact Or.inr (h ▸ List.mem_cons_self _ _)
      · rcases ih x h with h2 | h2
        · exact Or.inl h2
        · exact Or.inr (List.mem_cons_of_mem _ h2)

/-- Invariant of the specialized traversal map: keyed by IRI, one entry per
key, each record carrying the IRI it is keyed under. -/
abbrev SpecInv (m : SpecMap) : Prop :=
  (keys m).Nodup ∧ ∀ kv ∈ m, kv.2.iri = kv.1

theorem specInv_mapSet (m : SpecMap) (k : String) (v : SpecializedNode)
    (h : SpecInv m) (hv : v.iri = k) : SpecInv (mapSet m k v) := by
  refine ⟨nodup_keys_mapSet _ _ _ h.1, ?_⟩
  intro kv hkv
  rcases mem_mapSet_sub m k v kv hkv with h2 | h2
  · rw [h2]
    exact hv
  · exact h.2 kv h2

theorem specInv_get_iri {m : SpecMap} {k : String} {v : SpecializedNode}
    (h : SpecInv m) (hget : mapGet m k = some v) : v.iri = k :=
  h.2 (k, v) (mapGet_mem hget)

theorem specInv_labelCommit (ds : List Triple) (rel : List String) (cur : SpecMap)
    (h : SpecInv cur) : SpecInv (specializedLabelCommit ds cur rel) := by
  induction rel generalizing cur with
  | nil => exact h
  | cons childIri rest ih =>
    rw [specializedLabelCommit]
    cases hg : mapGet cur childIri with
    | some existing =>
      simp only [hg]
      apply ih
      have he := specInv_get_iri h hg
      exact specInv_mapSet _ _ _ h he
    | none =>
      simp only [hg]
      apply ih
      exact specInv_mapSet _ _ _ h rfl

theorem specInv_writeBack (ds : List Triple) (prev : SpecMap) (iri : String)
    (label : Option String) (relatedNodes : List String) (h : SpecInv prev) :
    SpecInv (specializedWriteBack ds prev iri label relatedNodes) := by
  rw [specializedWriteBack]
  cases hg : mapGet prev iri with
  | some existing =>
    by_cases hl : existing.loaded
    · simp only [hl, if_true]
      exact h
    · simp only [hl, if_false]
      by_cases hrel : 0 < relatedNodes.length
      · simp only [hrel, if_true]
        exact specInv_labelCommit _ _ _ (specInv_mapSet _ _ _ h rfl)
      · simp only [hrel, if_false]
        exact specInv_mapSet _ _ _ h rfl
  | none =>
    by_cases hrel : 0 < relatedNodes.length
    · simp only [hrel, if_true]
      exact specInv_labelCommit _ _ _ (specInv_mapSet _ _ _ h rfl)
    · simp only [hrel, if_false]
      exact specInv_mapSet _ _ _ h rfl

theorem filter_key_length_le_one {α : Type} (m : List (String × α))
    (h : (keys m).Nodup) (i : String) :
    (m.filter (fun kv => kv.1 = i)).length ≤ 1 := by
  induction m with
  | nil => simp
  | cons kv rest ih =>
    simp only [keys, List.map_cons, List.nodup_cons] at h
    by_cases hk : kv.1 = i
    · have hrest : rest.filter (fun kv => kv.1 = i) = [] := by
        rw [List.filter_eq_nil_iff]
        intro x hx
        simp only [decide_eq_true_eq]
        intro he
        exact h.1 (by rw [← hk] at he; exact he ▸ List.mem_map_of_mem Prod.fst hx)
      simp [List.filter_cons, hk, hrest]
    · simp only [List.filter_cons, decide_eq_true_eq, hk, if_false]
      exact ih h.2

/-- C8: node identity in the specialized traversal is the IRI alone.  Any
`loadNode` run preserves the map invariant that keys are pairwise distinct
IRIs and each record carries its own key-IRI, so every IRI — however many
times it is discovered — resolves to at most one entry, and a record looked
up under an IRI is that IRI's single shared record. -/
theorem c8_identity_memoization :
    ∀ (ds : List Triple) (direction : Direction) (predicateIri : String)
      (m : SpecMap) (iri : String),
      SpecInv m →
      SpecInv (loadNode ds direction predicateIri m iri) ∧
      (∀ i, ((loadNode ds direction predicateIri m iri).filter
        (fun kv => kv.1 = i)).length ≤ 1) ∧
      (∀ i v, mapGet (loadNode ds direction predicateIri m iri) i = some v →
        v.iri = i) := by
  intro ds direction predicateIri m iri h
  have hInv : SpecInv (loadNode ds direction predicateIri m iri) :=
    specInv_writeBack ds m iri (loadLabel ds iri)
      (match direction with
        | .outDir => loadSpecChildren ds predicateIri iri
        | .inDir => loadSpecParents ds predicateIri iri) h
  exact ⟨hInv, fun i => filter_key_length_le_one _ hInv.1 i,
    fun i v hget => specInv_get_iri hInv hget⟩

theorem c8_identity_memoization_witness :
    SpecInv [("ex:a", ({ iri := "ex:a", loaded := false } : SpecializedNode))] ∧
    SpecInv (loadNode
      [{ subject := .named "ex:a", predicate := .named "ex:p", object := .named "ex:b" }]
      .outDir "ex:p" [("ex:a", { iri := "ex:a", loaded := false })] "ex:a") :=
  ⟨by decide,
    (c8_identity_memoization
      [{ subject := .named "ex:a", predicate := .named "ex:p", object := .named "ex:b" }]
      .outDir "ex:p" [("ex:a", { iri := "ex:a", loaded := false })] "ex:a"
      (by decide)).1⟩
